import Mathlib

/-!
Verification of the tracing/propagation engine of `undefinedlabs/go-agent`.

The Lean definitions below are a shallow embedding of the Go sources:

* `tracer/propagation_ot.go` — the text-map and binary propagators
  (`textMapPropagator.Inject/Extract`, `binaryPropagator.Inject/Extract`);
* `tracer/random.go` — the seeded identifier generator
  (`generateSeed`, `randomID`, `randomID2`);
* `instrumentation/testing/testing.go` — `Agent.SetTestingMode`, the flush
  frequencies and the tracer options built by `NewAgent`.

Go `string` values are embedded as Lean `String`, Go maps as association
lists (`List (String × String)`) with overwrite-on-insert semantics, byte
streams as `List Nat` of byte values.  `strings.ToLower` is embedded as
ASCII lowercasing (all keys relevant to the propagators are ASCII).
Machine integers are `Nat` with explicit bounds/`%` where the code can
overflow.  Code of the repository that is not among the given sources
(the protobuf payload `wire.TracerState`, the `SpanRecorder` methods and
the tracer construction) is modelled from the specification; each such
definition is marked `Modelled from the spec:` in its doc comment.
-/

set_option maxRecDepth 4096

namespace GoAgent

/-! ## Characters and hex digits -/

/-- ASCII lowercasing of one character (embedding of `strings.ToLower`
on the ASCII keys used by the propagators). -/
def asciiLowerChar (c : Char) : Char :=
  if 'A' ≤ c ∧ c ≤ 'Z' then Char.ofNat (c.toNat + 32) else c

/-- ASCII lowercasing of a string. -/
def asciiLower (s : String) : String :=
  String.mk (s.data.map asciiLowerChar)

/-- Value of a hex digit, accepting both cases (the `xtob` helper of
`github.com/google/uuid` and the digit handling of `strconv.ParseUint`). -/
def hexDigitVal (c : Char) : Option Nat :=
  if '0' ≤ c ∧ c ≤ '9' then some (c.toNat - '0'.toNat)
  else if 'a' ≤ c ∧ c ≤ 'f' then some (c.toNat - 'a'.toNat + 10)
  else if 'A' ≤ c ∧ c ≤ 'F' then some (c.toNat - 'A'.toNat + 10)
  else none

/-- Lowercase hex digit for a value `< 16` (the digit alphabet of
`strconv.FormatUint(·, 16)` and `fmt.Sprintf("%x", ·)`). -/
def hexDigitChar (d : Nat) : Char :=
  if d < 10 then Char.ofNat ('0'.toNat + d) else Char.ofNat ('a'.toNat + d - 10)

/-- Fixed-width lowercase hex rendering (most significant digit first).
For `n < 16^w` this is exactly Go's `%0wx`. -/
def hexPadChars : Nat → Nat → List Char
  | 0, _ => []
  | w + 1, n => hexPadChars w (n / 16) ++ [hexDigitChar (n % 16)]

/-- Unpadded lowercase hex digits of a positive number. -/
def hexCharsNoPad (n : Nat) : List Char :=
  if h : n = 0 then [] else hexCharsNoPad (n / 16) ++ [hexDigitChar (n % 16)]
decreasing_by exact Nat.div_lt_self (Nat.pos_of_ne_zero h) (by omega)

/-- Embedding of `strconv.FormatUint(n, 16)`. -/
def formatUintHex (n : Nat) : String :=
  if n = 0 then "0" else String.mk (hexCharsNoPad n)

/-- Left fold accumulating hex digits; `none` on the first non-hex
character. -/
def parseHexFold (a : Nat) : List Char → Option Nat
  | [] => some a
  | c :: rest =>
    match hexDigitVal c with
    | some d => parseHexFold (16 * a + d) rest
    | none => none

/-- Embedding of `strconv.ParseUint(s, 16, 64)`: a nonempty all-hex string
whose value fits in 64 bits. -/
def parseUintHex64 (s : String) : Option Nat :=
  if s.data.isEmpty then none
  else
    match parseHexFold 0 s.data with
    | none => none
    | some v => if v < 2 ^ 64 then some v else none

/-- Embedding of `strconv.ParseBool`. -/
def parseBool (s : String) : Option Bool :=
  match s with
  | "1" | "t" | "T" | "TRUE" | "true" | "True" => some true
  | "0" | "f" | "F" | "FALSE" | "false" | "False" => some false
  | _ => none

/-- Embedding of `strconv.FormatBool`. -/
def formatBool (b : Bool) : String :=
  if b then "true" else "false"

/-! ## Big-endian bytes -/

/-- `w` big-endian bytes of `n % 2^(8*w)` (the layout produced by
`encoding/binary.BigEndian.PutUint64` and friends). -/
def beBytes : Nat → Nat → List Nat
  | 0, _ => []
  | w + 1, n => beBytes w (n / 256) ++ [n % 256]

/-- Big-endian value of a byte list (`encoding/binary.BigEndian.Uint64`
and `Uint32` on lists of the right length). -/
def beUint (l : List Nat) : Nat :=
  l.foldl (fun a b => 256 * a + b) 0

/-! ## Strings: prefixes, trimming, splitting -/

/-- Embedding of `strings.HasPrefix`. -/
def hasPfx (p s : String) : Bool :=
  s.data.take p.data.length = p.data

/-- Embedding of `strings.TrimPrefix`. -/
def trimPfx (p s : String) : String :=
  if hasPfx p s then String.mk (s.data.drop p.data.length) else s

/-- Split a character list at every occurrence of `sep` (the semantics of
`strings.Split` for a one-character separator: empty pieces are kept). -/
def splitCharList (sep : Char) : List Char → List (List Char)
  | [] => [[]]
  | c :: rest =>
    let r := splitCharList sep rest
    if c = sep then [] :: r else (c :: r.headD []) :: r.tail

/-- Embedding of `strings.Split(s, "-")` (one-character separator). -/
def splitOnChar (sep : Char) (s : String) : List String :=
  (splitCharList sep s.data).map String.mk

/-! ## Association lists as Go maps -/

/-- Insert-or-overwrite on an association list: the update semantics of a
Go map write and of `TextMapWriter.Set` on header-style carriers. -/
def mapInsert (m : List (String × String)) (k v : String) :
    List (String × String) :=
  match m with
  | [] => [(k, v)]
  | (k₀, v₀) :: rest =>
    if k₀ = k then (k, v) :: rest else (k₀, v₀) :: mapInsert rest k v

/-! ## The span-context data model (`tracer/span.go` types as used by the
propagators: a 128-bit trace id, a 64-bit span id, the sampled flag and
the baggage map) -/

structure SpanContext where
  traceID : Nat
  spanID : Nat
  sampled : Bool
  baggage : List (String × String)
deriving DecidableEq, Repr

/-- The `opentracing` error values surfaced by the propagators. -/
inductive OTError where
  | contextNotFound
  | contextCorrupted
  | invalidCarrier
  | invalidSpanContext
deriving DecidableEq, Repr

/-! ## `github.com/google/uuid`: `Parse`, `String`, `MarshalBinary` -/

/-- Parse one byte from the hex pair at positions `x`, `x+1` (the
`xtob(s[x], s[x+1])` step of `uuid.Parse`). -/
def xtobAt (cs : List Char) (x : Nat) : Option Nat := do
  let c₁ ← cs.get? x
  let c₂ ← cs.get? (x + 1)
  let h ← hexDigitVal c₁
  let l ← hexDigitVal c₂
  pure (16 * h + l)

/-- Byte-pair positions of the canonical 36-character UUID form. -/
def uuidPairPositions : List Nat :=
  [0, 2, 4, 6, 9, 11, 14, 16, 19, 21, 24, 26, 28, 30, 32, 34]

/-- The canonical-form branch of `uuid.Parse`: dashes at positions
8, 13, 18, 23 and sixteen hex byte pairs at the fixed positions.  Faithful
to the source, positions beyond 35 are never inspected. -/
def uuidCanonical36 (cs : List Char) : Option Nat :=
  if cs.getD 8 ' ' = '-' ∧ cs.getD 13 ' ' = '-' ∧
      cs.getD 18 ' ' = '-' ∧ cs.getD 23 ' ' = '-' then
    (uuidPairPositions.mapM (xtobAt cs)).map beUint
  else none

/-- Parse hex character pairs into bytes, front to back (the
32-character branch of `uuid.Parse`). -/
def parseHexBytes : List Char → Option (List Nat)
  | [] => some []
  | c₁ :: c₂ :: rest => do
    let h ← hexDigitVal c₁
    let l ← hexDigitVal c₂
    let bs ← parseHexBytes rest
    pure ((16 * h + l) :: bs)
  | [_] => none

/-- Embedding of `uuid.Parse` (google/uuid v1.1.1): length-dispatched
over the canonical, URN, braced and bare-hex forms.  The braced branch
strips one leading character without checking it, as in the source. -/
def uuidParse (s : String) : Option Nat :=
  let cs := s.data
  if cs.length = 36 then uuidCanonical36 cs
  else if cs.length = 36 + 9 then
    if (cs.take 9).map asciiLowerChar = "urn:uuid:".data then
      uuidCanonical36 (cs.drop 9)
    else none
  else if cs.length = 36 + 2 then uuidCanonical36 (cs.drop 1)
  else if cs.length = 32 then (parseHexBytes cs).map beUint
  else none

/-- Embedding of `uuid.UUID.String`: canonical lowercase
`xxxxxxxx-xxxx-xxxx-xxxx-xxxxxxxxxxxx` rendering of the 16 bytes. -/
def uuidString (tid : Nat) : String :=
  let h := hexPadChars 32 tid
  String.mk (h.take 8 ++ '-' :: (h.drop 8).take 4 ++ '-' :: (h.drop 12).take 4
    ++ '-' :: (h.drop 16).take 4 ++ '-' :: h.drop 20)

/-- Embedding of `strings.Replace(s, "-", "", -1)`. -/
def removeDashes (s : String) : String :=
  String.mk (s.data.filter (fun c => ¬ c = '-'))

/-! ## The text-map propagator (`propagation_ot.go`) -/

def prefixTracerState : String := "ot-tracer-"
def prefixBaggage : String := "ot-baggage-"
def tracerStateFieldCount : Int := 3
def fieldNameTraceID : String := prefixTracerState ++ "traceid"
def fieldNameSpanID : String := prefixTracerState ++ "spanid"
def fieldNameSampled : String := prefixTracerState ++ "sampled"
def traceParentKey : String := "traceparent"

/-- Embedding of `textMapPropagator.Inject` on a `SpanContext` and a
text-map carrier (the carrier-type and span-context-type assertions of the
source cannot fail in the typed embedding). -/
def textMapInject (sc : SpanContext) : List (String × String) :=
  let traceId := removeDashes (uuidString sc.traceID)
  let carrier := mapInsert [] fieldNameTraceID traceId
  let carrier := mapInsert carrier fieldNameSpanID (formatUintHex sc.spanID)
  let carrier := mapInsert carrier fieldNameSampled (formatBool sc.sampled)
  let tpSampled := if sc.sampled then "01" else "00"
  let traceParentValue :=
    "00" ++ "-" ++ traceId ++ "-" ++ String.mk (hexPadChars 16 sc.spanID)
      ++ "-" ++ tpSampled
  let carrier := mapInsert carrier traceParentKey traceParentValue
  sc.baggage.foldl (fun c kv => mapInsert c (prefixBaggage ++ kv.1) kv.2) carrier

/-- The mutable locals of `textMapPropagator.Extract` captured by its two
`ForeachKey` closures. -/
structure ExtractState where
  requiredFieldCount : Int
  traceID : Nat
  spanID : Nat
  sampled : Bool
  decodedBaggage : List (String × String)
deriving Repr

/-- The handler of the first `ForeachKey` scan of
`textMapPropagator.Extract` (the `traceparent` scan).  Returns the state
after the entry together with the handler's error, if any; on a parse
error the zero value assigned by Go's multiple-assignment is kept, as in
the source. -/
def extractScan1 (st : ExtractState) (k v : String) :
    ExtractState × Option OTError :=
  if asciiLower k = traceParentKey then
    if v.length < 55 then (st, some OTError.contextCorrupted)
    else
      let parts := splitOnChar '-' v
      if parts.length < 4 ∨ ¬ parts.getD 0 "" = "00" ∨
          ¬ (parts.getD 1 "").length = 32 ∨ ¬ (parts.getD 2 "").length = 16 then
        (st, some OTError.contextCorrupted)
      else
        match uuidParse (parts.getD 1 "") with
        | none => ({ st with traceID := 0 }, some OTError.contextCorrupted)
        | some tid =>
          match parseUintHex64 (parts.getD 2 "") with
          | none =>
            ({ st with traceID := tid, spanID := 0 },
              some OTError.contextCorrupted)
          | some sid =>
            let st := { st with traceID := tid, spanID := sid }
            let st :=
              if parts.getD 3 "" = "01" then { st with sampled := true } else st
            let st :=
              { st with requiredFieldCount := st.requiredFieldCount + 3 }
            ({ st with requiredFieldCount := st.requiredFieldCount + 1 }, none)
  else
    -- Balance off the requiredFieldCount++ just below (as in the source).
    let st := { st with requiredFieldCount := st.requiredFieldCount - 1 }
    ({ st with requiredFieldCount := st.requiredFieldCount + 1 }, none)

/-- The handler of the second `ForeachKey` scan of
`textMapPropagator.Extract` (discrete fields and baggage). -/
def extractScan2 (st : ExtractState) (k v : String) :
    ExtractState × Option OTError :=
  let lk := asciiLower k
  if lk = fieldNameTraceID then
    match uuidParse v with
    | none => ({ st with traceID := 0 }, some OTError.contextCorrupted)
    | some tid =>
      ({ st with
          traceID := tid,
          requiredFieldCount := st.requiredFieldCount + 1 }, none)
  else if lk = fieldNameSpanID then
    match parseUintHex64 v with
    | none => ({ st with spanID := 0 }, some OTError.contextCorrupted)
    | some sid =>
      ({ st with
          spanID := sid,
          requiredFieldCount := st.requiredFieldCount + 1 }, none)
  else if lk = fieldNameSampled then
    match parseBool v with
    | none => ({ st with sampled := false }, some OTError.contextCorrupted)
    | some b =>
      ({ st with
          sampled := b,
          requiredFieldCount := st.requiredFieldCount + 1 }, none)
  else
    let lowercaseK := asciiLower k
    let st :=
      if hasPfx prefixBaggage lowercaseK then
        { st with
          decodedBaggage :=
            mapInsert st.decodedBaggage (trimPfx prefixBaggage lowercaseK) v }
      else st
    -- Balance off the requiredFieldCount++ just below (as in the source).
    let st := { st with requiredFieldCount := st.requiredFieldCount - 1 }
    ({ st with requiredFieldCount := st.requiredFieldCount + 1 }, none)

/-- `TextMapReader.ForeachKey`: run a handler over the carrier entries in
order, aborting on the first error.  The state mutated before the abort is
kept (the Go closures mutate captured locals). -/
def runKeys (f : ExtractState → String → String → ExtractState × Option OTError)
    (st : ExtractState) :
    List (String × String) → ExtractState × Option OTError
  | [] => (st, none)
  | (k, v) :: rest =>
    match f st k v with
    | (st', none) => runKeys f st' rest
    | (st', some e) => (st', some e)

/-- Embedding of `textMapPropagator.Extract`.  Faithful to the source, the
error returned by the first `ForeachKey` scan is overwritten by the result
of the second scan (`err = carrier.ForeachKey(...)` twice), while the
state mutated during the first scan is kept. -/
def textMapExtract (carrier : List (String × String)) :
    Except OTError SpanContext :=
  let st₀ : ExtractState := ⟨0, 0, 0, false, []⟩
  let r₁ := runKeys extractScan1 st₀ carrier
  let r₂ := runKeys extractScan2 r₁.1 carrier
  match r₂.2 with
  | some e => Except.error e
  | none =>
    if r₂.1.requiredFieldCount < tracerStateFieldCount then
      if r₂.1.requiredFieldCount = 0 then Except.error OTError.contextNotFound
      else Except.error OTError.contextCorrupted
    else
      Except.ok
        { traceID := r₂.1.traceID, spanID := r₂.1.spanID,
          sampled := r₂.1.sampled, baggage := r₂.1.decodedBaggage }

/-! ## The binary propagator (`propagation_ot.go`)

The payload type `wire.TracerState` and its protobuf codec live in
`tracer/wire`, which is not among the given sources; the codec is
modelled from the spec below. -/

/-- The `wire.TracerState` message: trace id split into two 64-bit
halves, span id, sampled flag and the baggage map. -/
structure TracerState where
  traceIdHi : Nat
  traceIdLo : Nat
  spanId : Nat
  sampled : Bool
  baggageItems : List (String × String)
deriving DecidableEq, Repr

/-- Wire encoding of one baggage entry (4-byte big-endian lengths, then
the character values). -/
def encEntry (kv : String × String) : List Nat :=
  beBytes 4 kv.1.data.length ++ kv.1.data.map Char.toNat
    ++ beBytes 4 kv.2.data.length ++ kv.2.data.map Char.toNat

/-- Wire encoding of the baggage entries in order. -/
def encEntries : List (String × String) → List Nat
  | [] => []
  | kv :: rest => encEntry kv ++ encEntries rest

/-- Modelled from the spec: `proto.Marshal` of `wire.TracerState`
(code in `tracer/wire`, not among the sources).  Per §4.4 the structured
payload carries the trace-id halves, the span id, the sampled flag and
the baggage mapping; the model lays them out as a leading format byte,
three 8-byte big-endian fields, one flag byte, then a 4-byte entry count
and length-prefixed baggage entries. -/
def wireMarshal (st : TracerState) : List Nat :=
  1 :: beBytes 8 st.traceIdHi ++ beBytes 8 st.traceIdLo
    ++ beBytes 8 st.spanId ++ [if st.sampled then 1 else 0]
    ++ beBytes 4 st.baggageItems.length ++ encEntries st.baggageItems

/-- Take exactly `n` leading bytes, failing on a shorter input. -/
def readBytes (n : Nat) (l : List Nat) : Option (List Nat × List Nat) :=
  if l.length < n then none else some (l.take n, l.drop n)

/-- Decode `n` length-prefixed baggage entries. -/
def readEntries : Nat → List Nat → Option (List (String × String) × List Nat)
  | 0, l => some ([], l)
  | n + 1, l => do
    let (klB, r₁) ← readBytes 4 l
    let (kB, r₂) ← readBytes (beUint klB) r₁
    let (vlB, r₃) ← readBytes 4 r₂
    let (vB, r₄) ← readBytes (beUint vlB) r₃
    let (rest, r₅) ← readEntries n r₄
    pure ((String.mk (kB.map Char.ofNat), String.mk (vB.map Char.ofNat)) :: rest, r₅)

/-- Modelled from the spec: `proto.Unmarshal` into `wire.TracerState`
(code in `tracer/wire`, not among the sources).  Inverse of
`wireMarshal`; any leftover bytes or malformed field is a
deserialization failure. -/
def wireUnmarshal (buf : List Nat) : Option TracerState := do
  let (tag, r₀) ← readBytes 1 buf
  if tag = [1] then
    let (hiB, r₁) ← readBytes 8 r₀
    let (loB, r₂) ← readBytes 8 r₁
    let (sidB, r₃) ← readBytes 8 r₂
    let (sB, r₄) ← readBytes 1 r₃
    let sampled ← match sB with
      | [0] => some false
      | [1] => some true
      | _ => none
    let (cntB, r₅) ← readBytes 4 r₄
    let (entries, r₆) ← readEntries (beUint cntB) r₅
    if r₆ = [] then
      some { traceIdHi := beUint hiB, traceIdLo := beUint loB,
             spanId := beUint sidB, sampled := sampled,
             baggageItems := entries }
    else none
  else none

/-- The `wire.TracerState` built by `binaryPropagator.Inject`: the 16
marshalled trace-id bytes split into two big-endian 64-bit halves
(`binary.BigEndian.Uint64(bytes[:8])` / `(bytes[8:])`). -/
def wireStateOf (sc : SpanContext) : TracerState :=
  let bytes := beBytes 16 sc.traceID
  { traceIdHi := beUint (bytes.take 8), traceIdLo := beUint (bytes.drop 8),
    spanId := sc.spanID, sampled := sc.sampled, baggageItems := sc.baggage }

/-- Embedding of `binaryPropagator.Inject`: protobuf-marshal the
`wire.TracerState`, then write the 4-byte big-endian `uint32` length
(truncating, as `uint32(len(b))` does) followed by the payload. -/
def binaryInject (sc : SpanContext) : List Nat :=
  let b := wireMarshal (wireStateOf sc)
  let length := b.length % 2 ^ 32
  beBytes 4 length ++ b

/-- An `io.Reader` carrier for `binaryPropagator.Extract`: the available
bytes, plus whether a `Read` call that hits the end of the data reports
the error in that same call (readers such as `bytes.Reader` instead
return the short count with a nil error and fail on the next call). -/
structure ByteReader where
  bytes : List Nat
  errWithData : Bool
deriving Repr

/-- One `Read(buf)` call on the carrier: returns the bytes read, whether
an error was returned alongside them, and the rest of the stream.  A call
on an exhausted stream returns `(0, io.EOF)`. -/
def readOnce (r : ByteReader) (req : Nat) :
    List Nat × Bool × ByteReader :=
  if r.bytes.isEmpty then ([], true, r)
  else
    let chunk := r.bytes.take req
    let rest : ByteReader := { r with bytes := r.bytes.drop req }
    if chunk.length < req ∧ r.errWithData then (chunk, true, rest)
    else (chunk, false, rest)

/-- `binary.Read(carrier, binary.BigEndian, &length)`: an `io.ReadFull`
of exactly 4 bytes, erroring when fewer are available. -/
def readFull4 (r : ByteReader) : Option (Nat × ByteReader) :=
  if r.bytes.length < 4 then none
  else some (beUint (r.bytes.take 4), { r with bytes := r.bytes.drop 4 })

/-- Embedding of `binaryPropagator.Extract`.  The payload buffer is
allocated at the decoded length and zero-filled; a `Read` that returns
fewer bytes with no error leaves the zero tail in place, exactly as
`make([]byte, length)` followed by a single `carrier.Read(buf)` does. -/
def binaryExtract (r : ByteReader) : Except OTError SpanContext :=
  match readFull4 r with
  | none => Except.error OTError.contextCorrupted
  | some (length, r₁) =>
    let (chunk, readErr, _) := readOnce r₁ length
    if readErr then
      if 0 < chunk.length then Except.error OTError.contextCorrupted
      else Except.error OTError.contextNotFound
    else
      let buf := chunk ++ List.replicate (length - chunk.length) 0
      match wireUnmarshal buf with
      | none => Except.error OTError.contextCorrupted
      | some ctx =>
        Except.ok
          { traceID := beUint (beBytes 8 ctx.traceIdHi ++ beBytes 8 ctx.traceIdLo),
            spanID := ctx.spanId, sampled := ctx.sampled,
            baggage := ctx.baggageItems }

/-! ## The identifier generator (`tracer/random.go`, crypto-seeded
variant) -/

/-- Little-endian value of a byte list (`binary.LittleEndian.Uint64`). -/
def leUint (l : List Nat) : Nat :=
  l.foldr (fun b a => 256 * a + b) 0

/-- Go's `int64(u)` conversion of a `uint64`. -/
def int64OfUint64 (u : Nat) : Int :=
  if u < 2 ^ 63 then (u : Int) else (u : Int) - 2 ^ 64

/-- Embedding of `generateSeed`: the outcome of `cryptorand.Read` on the
8-byte buffer is passed in as `some bytes` (success) or `none` (failure).
Returns the seed and whether the degradation was reported through the
logger.  On failure the seed falls back to `time.Now().UnixNano()`. -/
def generateSeed (cryptoRead : Option (List Nat)) (nowUnixNano : Int) :
    Int × Bool :=
  match cryptoRead with
  | none => (nowUnixNano, true)
  | some b => (int64OfUint64 (leUint (b.take 8)), false)

/-- The shared `math/rand` generator state behind `seededIDLock`.  The
stdlib stream is abstracted as a concrete total step function: `Int63`
always returns a value in `[0, 2^63)` and never fails. -/
structure RandGen where
  state : Nat
deriving Repr

/-- Abstraction of `rand.Rand.Int63`: one total draw from the stream. -/
def randInt63 (g : RandGen) : Nat × RandGen :=
  (g.state % 2 ^ 63, ⟨g.state + 1⟩)

/-- Embedding of `randomID`: one draw, converted with `uint64(·)`. -/
def randomID (g : RandGen) : Nat × RandGen :=
  let (v, g') := randInt63 g
  (v, g')

/-- Embedding of `randomID2`: two consecutive draws under the same lock. -/
def randomID2 (g : RandGen) : (Nat × Nat) × RandGen :=
  let (v₁, g₁) := randInt63 g
  let (v₂, g₂) := randInt63 g₁
  ((v₁, v₂), g₂)

/-! ## Agent testing mode and recorder frequency
(`instrumentation/testing/testing.go`) -/

/-- One nanosecond-denominated `time.Second`. -/
def timeSecond : Nat := 1000000000

/-- `time.Minute` in nanoseconds. -/
def timeMinute : Nat := 60 * timeSecond

/-- `testingModeFrequency = time.Second`. -/
def testingModeFrequency : Nat := timeSecond

/-- `nonTestingModeFrequency = time.Minute`. -/
def nonTestingModeFrequency : Nat := timeMinute

/-- Modelled from the spec: the `SpanRecorder` state visible to
`Agent.SetTestingMode` — the background loop's flush period, adjusted by
`ChangeFlushFrequency` (recorder code not among the sources; §4.5). -/
structure SpanRecorder where
  flushFrequency : Nat
deriving DecidableEq, Repr

/-- Modelled from the spec: `ChangeFlushFrequency(duration)` adjusts the
background timer period. -/
def changeFlushFrequency (r : SpanRecorder) (d : Nat) : SpanRecorder :=
  { r with flushFrequency := d }

/-- The `Agent` fields involved in `SetTestingMode`. -/
structure Agent where
  testingMode : Bool
  recorder : SpanRecorder
deriving DecidableEq, Repr

/-- Embedding of `Agent.SetTestingMode`. -/
def setTestingMode (a : Agent) (enabled : Bool) : Agent :=
  let a := { a with testingMode := enabled }
  if a.testingMode then
    { a with recorder := changeFlushFrequency a.recorder testingModeFrequency }
  else
    { a with recorder := changeFlushFrequency a.recorder nonTestingModeFrequency }

/-! ## The sampling predicate installed by `NewAgent` and the tracer's
sampling decision -/

/-- The `ShouldSample` predicate `NewAgent` passes to
`tracer.NewWithOptions`: `func(traceID uint64) bool { return true }`. -/
def newAgentShouldSample : Nat → Bool := fun _ => true

/-- Modelled from the spec: the span-context part of the tracer's
`StartSpan` (tracer core not among the sources; §4.2).  A root span gets
a fresh trace id and the `ShouldSample(traceID)` decision; a child
inherits trace id, baggage and sampled flag verbatim and only receives a
new span id. -/
def startSpanContext (shouldSample : Nat → Bool) (parent : Option SpanContext)
    (newTraceID newSpanID : Nat) : SpanContext :=
  match parent with
  | none =>
    { traceID := newTraceID, spanID := newSpanID,
      sampled := shouldSample newTraceID, baggage := [] }
  | some p =>
    { traceID := p.traceID, spanID := newSpanID,
      sampled := p.sampled, baggage := p.baggage }

/-- The span contexts reachable through a tracer constructed by
`NewAgent`: roots started with no parent, and descendants of reachable
contexts. -/
inductive AgentSpan : SpanContext → Prop where
  | root (tid sid : Nat) :
      AgentSpan (startSpanContext newAgentShouldSample none tid sid)
  | child (p : SpanContext) (tid sid : Nat) :
      AgentSpan p →
      AgentSpan (startSpanContext newAgentShouldSample (some p) tid sid)

/-! ## Derived notions used by the claims -/

/-- The injected carrier restricted to the three discrete
`ot-tracer-*` fields plus baggage keys (the `traceparent` entry
removed). -/
def discreteOnly (c : List (String × String)) : List (String × String) :=
  c.filter (fun kv => ¬ kv.1 = traceParentKey)

/-- The injected carrier restricted to the composite `traceparent` field
plus baggage keys (the three discrete fields removed). -/
def compositeOnly (c : List (String × String)) : List (String × String) :=
  c.filter (fun kv =>
    ¬ (kv.1 = fieldNameTraceID ∨ kv.1 = fieldNameSpanID ∨ kv.1 = fieldNameSampled))

/-- Full validity of a composite `traceparent` value, exactly the checks
of the first extraction scan: length, part shape, version `00`, and
parsable trace/span ids. -/
def tpValid (v : String) : Bool :=
  if v.length < 55 then false
  else
    let parts := splitOnChar '-' v
    if parts.length < 4 ∨ ¬ parts.getD 0 "" = "00" ∨
        ¬ (parts.getD 1 "").length = 32 ∨ ¬ (parts.getD 2 "").length = 16 then
      false
    else (uuidParse (parts.getD 1 "")).isSome ∧
      (parseUintHex64 (parts.getD 2 "")).isSome

/-- The count of valid required fields as the spec's decision rule states
it: each well-formed discrete field contributes one, a fully valid
composite field contributes the equivalent of all three. -/
def claimCount (c : List (String × String)) : Nat :=
  (if c.any (fun kv => asciiLower kv.1 = fieldNameTraceID) then 1 else 0)
    + (if c.any (fun kv => asciiLower kv.1 = fieldNameSpanID) then 1 else 0)
    + (if c.any (fun kv => asciiLower kv.1 = fieldNameSampled) then 1 else 0)
    + (if c.any (fun kv => asciiLower kv.1 = traceParentKey && tpValid kv.2)
        then 3 else 0)

/-- Every discrete required field present in the carrier carries a
well-formed value (malformed ones instead take the immediate
context-corrupted path). -/
def validDiscreteFields (c : List (String × String)) : Prop :=
  ∀ kv ∈ c,
    (asciiLower kv.1 = fieldNameTraceID → (uuidParse kv.2).isSome) ∧
    (asciiLower kv.1 = fieldNameSpanID → (parseUintHex64 kv.2).isSome) ∧
    (asciiLower kv.1 = fieldNameSampled → (parseBool kv.2).isSome)

instance (c : List (String × String)) : Decidable (validDiscreteFields c) := by
  unfold validDiscreteFields; infer_instance

/-- Baggage whose entries fit the 32-bit length prefixes of the binary
wire model. -/
def boundedBaggage (bag : List (String × String)) : Prop :=
  bag.length < 2 ^ 32 ∧
    ∀ kv ∈ bag, kv.1.data.length < 2 ^ 32 ∧ kv.2.data.length < 2 ^ 32

instance (bag : List (String × String)) : Decidable (boundedBaggage bag) := by
  unfold boundedBaggage; infer_instance

instance : DecidableEq (Except OTError SpanContext) := fun a b =>
  match a, b with
  | Except.ok x, Except.ok y =>
    if h : x = y then Decidable.isTrue (by rw [h])
    else Decidable.isFalse (fun he => h (Except.ok.inj he))
  | Except.error x, Except.error y =>
    if h : x = y then Decidable.isTrue (by rw [h])
    else Decidable.isFalse (fun he => h (Except.error.inj he))
  | Except.ok _, Except.error _ =>
    Decidable.isFalse (fun he => Except.noConfusion he)
  | Except.error _, Except.ok _ =>
    Decidable.isFalse (fun he => Except.noConfusion he)

/-! ## Hex digit and parsing lemmas -/

theorem hexDigitVal_hexDigitChar {d : Nat} (h : d < 16) :
    hexDigitVal (hexDigitChar d) = some d := by
  interval_cases d <;> decide

theorem hexDigitChar_ne_dash {d : Nat} (h : d < 16) :
    ¬ hexDigitChar d = '-' := by
  interval_cases d <;> decide

theorem hexDigitVal_isSome_hexDigitChar {d : Nat} (h : d < 16) :
    (hexDigitVal (hexDigitChar d)).isSome := by
  rw [hexDigitVal_hexDigitChar h]
  rfl

theorem hexPadChars_length (w : Nat) : ∀ n, (hexPadChars w n).length = w := by
  induction w with
  | zero => intro n; rfl
  | succ w ih => intro n; simp [hexPadChars, ih]

theorem hexPadChars_mem (w : Nat) :
    ∀ n, ∀ c ∈ hexPadChars w n, ∃ d, d < 16 ∧ c = hexDigitChar d := by
  induction w with
  | zero => intro n c hc; simp [hexPadChars] at hc
  | succ w ih =>
    intro n c hc
    simp only [hexPadChars, List.mem_append, List.mem_singleton] at hc
    rcases hc with hc | hc
    · exact ih _ c hc
    · exact ⟨n % 16, Nat.mod_lt _ (by norm_num), hc⟩

theorem hexPadChars_no_dash (w n : Nat) : ∀ c ∈ hexPadChars w n, ¬ c = '-' := by
  intro c hc
  obtain ⟨d, hd, rfl⟩ := hexPadChars_mem w n c hc
  exact hexDigitChar_ne_dash hd

theorem parseHexFold_append (l₁ l₂ : List Char) : ∀ a,
    parseHexFold a (l₁ ++ l₂) = match parseHexFold a l₁ with
      | some b => parseHexFold b l₂
      | none => none := by
  induction l₁ with
  | nil => intro a; rfl
  | cons c l ih =>
    intro a
    simp only [List.cons_append, parseHexFold]
    cases hexDigitVal c with
    | none => rfl
    | some d => exact ih _

theorem parseHexFold_hexPadChars (w : Nat) : ∀ n a,
    parseHexFold a (hexPadChars w n) = some (a * 16 ^ w + n % 16 ^ w) := by
  induction w with
  | zero => intro n a; simp [hexPadChars, parseHexFold, Nat.mod_one]
  | succ w ih =>
    intro n a
    rw [show hexPadChars (w + 1) n
        = hexPadChars w (n / 16) ++ [hexDigitChar (n % 16)] from rfl]
    rw [parseHexFold_append, ih]
    simp only [parseHexFold, hexDigitVal_hexDigitChar (Nat.mod_lt n (by norm_num))]
    congr 1
    have hm : n % 16 ^ (w + 1) = n % 16 + 16 * (n / 16 % 16 ^ w) := by
      rw [pow_succ', Nat.mod_mul]
    rw [hm, pow_succ]
    ring

theorem hexCharsNoPad_ne_nil {n : Nat} (h : 0 < n) : ¬ hexCharsNoPad n = [] := by
  rw [hexCharsNoPad]
  rw [dif_neg (by omega)]
  simp

theorem parseHexFold_hexCharsNoPad (n : Nat) : ∀ a,
    parseHexFold a (hexCharsNoPad n)
      = some (a * 16 ^ (hexCharsNoPad n).length + n) := by
  induction n using Nat.strong_induction_on with
  | _ n ih =>
    intro a
    by_cases h0 : n = 0
    · subst h0
      rw [hexCharsNoPad]
      simp [parseHexFold]
    · rw [hexCharsNoPad, dif_neg h0]
      have hdiv : n / 16 < n := Nat.div_lt_self (by omega) (by norm_num)
      rw [parseHexFold_append, ih _ hdiv]
      simp only [parseHexFold,
        hexDigitVal_hexDigitChar (Nat.mod_lt n (by norm_num))]
      simp only [List.length_append, List.length_singleton]
      congr 1
      have hdm : 16 * (n / 16) + n % 16 = n := Nat.div_add_mod n 16
      calc 16 * (a * 16 ^ (hexCharsNoPad (n / 16)).length + n / 16) + n % 16
          = a * (16 ^ (hexCharsNoPad (n / 16)).length * 16)
            + (16 * (n / 16) + n % 16) := by ring
        _ = a * 16 ^ ((hexCharsNoPad (n / 16)).length + 1) + n := by
            rw [hdm, pow_succ]

theorem parseUintHex64_hexPadChars16 {n : Nat} (h : n < 2 ^ 64) :
    parseUintHex64 (String.mk (hexPadChars 16 n)) = some n := by
  unfold parseUintHex64
  rw [if_neg (by simp [List.isEmpty_iff, ← List.length_pos, hexPadChars_length])]
  rw [show (String.mk (hexPadChars 16 n)).data = hexPadChars 16 n from rfl]
  rw [parseHexFold_hexPadChars]
  have hmod : n % 16 ^ 16 = n := Nat.mod_eq_of_lt (by norm_num; omega)
  simp only [zero_mul, zero_add, hmod]
  rw [if_pos h]

theorem parseUintHex64_formatUintHex {n : Nat} (h : n < 2 ^ 64) :
    parseUintHex64 (formatUintHex n) = some n := by
  by_cases h0 : n = 0
  · subst h0; rfl
  · unfold formatUintHex
    rw [if_neg h0]
    unfold parseUintHex64
    rw [if_neg (by simp [List.isEmpty_iff, hexCharsNoPad_ne_nil (by omega : 0 < n)])]
    rw [show (String.mk (hexCharsNoPad n)).data = hexCharsNoPad n from rfl]
    rw [parseHexFold_hexCharsNoPad]
    simp only [zero_mul, zero_add]
    rw [if_pos h]

theorem parseBool_formatBool (b : Bool) : parseBool (formatBool b) = some b := by
  cases b <;> rfl

/-! ## Big-endian byte lemmas -/

theorem beBytes_length (w : Nat) : ∀ n, (beBytes w n).length = w := by
  induction w with
  | zero => intro n; rfl
  | succ w ih => intro n; simp [beBytes, ih]

theorem beBytes_mem_lt (w : Nat) : ∀ n, ∀ x ∈ beBytes w n, x < 256 := by
  induction w with
  | zero => intro n x hx; simp [beBytes] at hx
  | succ w ih =>
    intro n x hx
    simp only [beBytes, List.mem_append, List.mem_singleton] at hx
    rcases hx with hx | hx
    · exact ih _ x hx
    · omega

theorem beUint_foldl (l : List Nat) : ∀ a : Nat,
    List.foldl (fun x b => 256 * x + b) a l = a * 256 ^ l.length + beUint l := by
  induction l with
  | nil => intro a; simp [beUint]
  | cons c l ih =>
    intro a
    have hc : beUint (c :: l) = c * 256 ^ l.length + beUint l := by
      simpa [beUint] using ih c
    simp only [List.foldl_cons, List.length_cons]
    rw [ih (256 * a + c), hc]
    ring

theorem beUint_append (l₁ l₂ : List Nat) :
    beUint (l₁ ++ l₂) = beUint l₁ * 256 ^ l₂.length + beUint l₂ := by
  unfold beUint
  rw [List.foldl_append]
  exact beUint_foldl l₂ _

theorem beUint_singleton (x : Nat) : beUint [x] = x := by
  simp [beUint]

theorem beUint_lt (l : List Nat) (h : ∀ x ∈ l, x < 256) :
    beUint l < 256 ^ l.length := by
  induction l with
  | nil => simp [beUint]
  | cons c t ih =>
    have hc : beUint (c :: t) = c * 256 ^ t.length + beUint t := by
      simpa [beUint] using beUint_foldl t c
    have h₁ : c < 256 := h c (List.mem_cons_self _ _)
    have h₂ : beUint t < 256 ^ t.length := ih fun x hx => h x (List.mem_cons_of_mem _ hx)
    have : (c + 1) * 256 ^ t.length ≤ 256 ^ (t.length + 1) := by
      rw [pow_succ, mul_comm (256 ^ t.length) 256]
      exact Nat.mul_le_mul_right _ (by omega)
    calc beUint (c :: t) = c * 256 ^ t.length + beUint t := hc
      _ < c * 256 ^ t.length + 256 ^ t.length := Nat.add_lt_add_left h₂ _
      _ = (c + 1) * 256 ^ t.length := by ring
      _ ≤ 256 ^ (t.length + 1) := this
      _ = 256 ^ (c :: t).length := by simp

theorem beUint_beBytes (w : Nat) : ∀ n, n < 2 ^ (8 * w) →
    beUint (beBytes w n) = n := by
  induction w with
  | zero =>
    intro n hn
    interval_cases n
    rfl
  | succ w ih =>
    intro n hn
    have hdiv : n / 256 < 2 ^ (8 * w) := by
      have h₂ : 2 ^ (8 * (w + 1)) = 2 ^ (8 * w) * 256 := by
        rw [show 8 * (w + 1) = 8 * w + 8 by ring, pow_add]
        norm_num
      rw [Nat.div_lt_iff_lt_mul (by norm_num : 0 < 256)]
      omega
    simp only [beBytes]
    rw [beUint_append, ih _ hdiv, beUint_singleton]
    simp only [List.length_singleton, pow_one]
    omega

theorem beBytes_split (a : Nat) : ∀ b n, beBytes (a + b) n =
    beBytes a (n / 2 ^ (8 * b)) ++ beBytes b (n % 2 ^ (8 * b)) := by
  intro b
  induction b with
  | zero => intro n; simp [beBytes]
  | succ b ih =>
    intro n
    have hpow : 2 ^ (8 * (b + 1)) = 256 * 2 ^ (8 * b) := by
      rw [show 8 * (b + 1) = 8 + 8 * b by ring, pow_add]
      norm_num
    have h₁ : n / 256 / 2 ^ (8 * b) = n / 2 ^ (8 * (b + 1)) := by
      rw [Nat.div_div_eq_div_mul, hpow]
    have h₂ : n / 256 % 2 ^ (8 * b) = n % 2 ^ (8 * (b + 1)) / 256 := by
      rw [hpow]
      exact (Nat.mod_mul_right_div_self n 256 (2 ^ (8 * b))).symm
    have h₃ : n % 2 ^ (8 * (b + 1)) % 256 = n % 256 := by
      apply Nat.mod_mod_of_dvd
      rw [hpow]
      exact Dvd.intro _ rfl
    show beBytes (a + b + 1) n = _
    simp only [beBytes]
    rw [ih (n / 256), h₁, h₂, h₃, List.append_assoc]

/-! ## UUID parsing lemmas -/

theorem pow16_eq_pow2 (w : Nat) : (16 : Nat) ^ (2 * w) = 2 ^ (8 * w) := by
  rw [show (16 : Nat) = 2 ^ 4 from rfl, ← pow_mul]
  ring_nf

theorem hexPadChars_split (a : Nat) : ∀ b n, hexPadChars (a + b) n =
    hexPadChars a (n / 16 ^ b) ++ hexPadChars b (n % 16 ^ b) := by
  intro b
  induction b with
  | zero => intro n; simp [hexPadChars, Nat.mod_one]
  | succ b ih =>
    intro n
    have hpow : 16 ^ (b + 1) = 16 * 16 ^ b := by
      rw [pow_succ]
      ring
    have h₁ : n / 16 / 16 ^ b = n / 16 ^ (b + 1) := by
      rw [Nat.div_div_eq_div_mul, hpow, mul_comm]
    have h₂ : n / 16 % 16 ^ b = n % 16 ^ (b + 1) / 16 := by
      rw [hpow]
      exact (Nat.mod_mul_right_div_self n 16 (16 ^ b)).symm
    have h₃ : n % 16 ^ (b + 1) % 16 = n % 16 := by
      apply Nat.mod_mod_of_dvd
      rw [hpow]
      exact Dvd.intro _ rfl
    show hexPadChars (a + b + 1) n = _
    simp only [hexPadChars]
    rw [ih (n / 16), h₁, h₂, h₃, List.append_assoc]

theorem parseHexBytes_hexPadChars : ∀ w n,
    parseHexBytes (hexPadChars (2 * w) n) = some (beBytes w n) := by
  intro w
  induction w with
  | zero => intro n; rfl
  | succ w ih =>
    intro n
    have hsplit : hexPadChars (2 * (w + 1)) n
        = hexPadChars 2 (n / 16 ^ (2 * w)) ++ hexPadChars (2 * w) (n % 16 ^ (2 * w)) := by
      rw [show 2 * (w + 1) = 2 + 2 * w by ring]
      exact hexPadChars_split 2 (2 * w) n
    rw [hsplit]
    rw [show hexPadChars 2 (n / 16 ^ (2 * w))
        = [hexDigitChar (n / 16 ^ (2 * w) / 16 % 16),
           hexDigitChar (n / 16 ^ (2 * w) % 16)] from rfl]
    simp only [List.cons_append, List.nil_append, parseHexBytes,
      hexDigitVal_hexDigitChar (Nat.mod_lt _ (by norm_num : 0 < 16)),
      Option.bind_eq_bind, Option.some_bind, ih]
    have hbyte : 16 * (n / 16 ^ (2 * w) / 16 % 16) + n / 16 ^ (2 * w) % 16
        = n / 16 ^ (2 * w) % 256 := by
      rw [show (256 : Nat) = 16 * 16 from rfl, Nat.mod_mul]
      omega
    have hbe : beBytes (w + 1) n
        = n / 2 ^ (8 * w) % 256 :: beBytes w (n % 2 ^ (8 * w)) := by
      rw [show w + 1 = 1 + w by ring, beBytes_split 1 w n]
      rfl
    rw [hbyte, hbe, pow16_eq_pow2]
    simp [ih]

theorem data_mk (l : List Char) : (String.mk l).data = l := rfl

theorem uuidParse_hexPadChars32 {n : Nat} (h : n < 2 ^ 128) :
    uuidParse (String.mk (hexPadChars 32 n)) = some n := by
  have hp := parseHexBytes_hexPadChars 16 n
  norm_num at hp
  simp only [uuidParse, data_mk, hexPadChars_length]
  rw [if_neg (by norm_num), if_neg (by norm_num), if_neg (by norm_num),
    if_pos trivial, hp]
  rw [show Option.map beUint (some (beBytes 16 n)) = some (beUint (beBytes 16 n))
    from rfl]
  rw [beUint_beBytes 16 n (by norm_num; exact h)]

/-! ## String utility lemmas -/

theorem mk_data (s : String) : String.mk s.data = s := rfl

theorem data_append (s t : String) : (s ++ t).data = s.data ++ t.data := rfl

theorem length_data (s : String) : s.length = s.data.length := rfl

theorem ne_of_data_ne {s t : String} (h : ¬ s.data = t.data) : ¬ s = t :=
  fun he => h (congrArg String.data he)

theorem string_append_left_cancel {p a b : String} (h : p ++ a = p ++ b) :
    a = b := by
  have hd := congrArg String.data h
  rw [data_append, data_append] at hd
  have := List.append_cancel_left hd
  calc a = String.mk a.data := (mk_data a).symm
    _ = String.mk b.data := by rw [this]
    _ = b := mk_data b

theorem append_ne_of_get {p k t : String} {i : Nat} {a b : Char}
    (hp : p.data.get? i = some a) (ht : t.data.get? i = some b)
    (hab : ¬ a = b) (hi : i < p.data.length) : ¬ (p ++ k) = t := by
  intro h
  have hg := congrArg (fun s => s.data.get? i) h
  simp only [data_append] at hg
  rw [List.get?_append hi, hp, ht] at hg
  exact hab (Option.some.inj hg)

theorem bkey_ne_traceParent (k : String) :
    ¬ (prefixBaggage ++ k) = traceParentKey :=
  append_ne_of_get (i := 0) (a := 'o') (b := 't') rfl rfl (by decide) (by decide)

theorem bkey_ne_fieldTraceID (k : String) :
    ¬ (prefixBaggage ++ k) = fieldNameTraceID :=
  append_ne_of_get (i := 3) (a := 'b') (b := 't') rfl rfl (by decide) (by decide)

theorem bkey_ne_fieldSpanID (k : String) :
    ¬ (prefixBaggage ++ k) = fieldNameSpanID :=
  append_ne_of_get (i := 3) (a := 'b') (b := 't') rfl rfl (by decide) (by decide)

theorem bkey_ne_fieldSampled (k : String) :
    ¬ (prefixBaggage ++ k) = fieldNameSampled :=
  append_ne_of_get (i := 3) (a := 'b') (b := 't') rfl rfl (by decide) (by decide)

theorem asciiLower_append (s t : String) :
    asciiLower (s ++ t) = asciiLower s ++ asciiLower t := by
  unfold asciiLower
  rw [show String.mk (s.data.map asciiLowerChar) ++ String.mk (t.data.map asciiLowerChar)
      = String.mk (s.data.map asciiLowerChar ++ t.data.map asciiLowerChar) from rfl]
  rw [show (s ++ t).data = s.data ++ t.data from rfl, List.map_append]

theorem asciiLower_prefixBaggage : asciiLower prefixBaggage = prefixBaggage := by
  decide

theorem asciiLower_bkey (k : String) :
    asciiLower (prefixBaggage ++ k) = prefixBaggage ++ asciiLower k := by
  rw [asciiLower_append, asciiLower_prefixBaggage]

theorem hasPfx_append (p s : String) : hasPfx p (p ++ s) = true := by
  unfold hasPfx
  rw [data_append, List.take_left]
  simp

theorem trimPfx_append (p s : String) : trimPfx p (p ++ s) = s := by
  unfold trimPfx
  rw [if_pos (hasPfx_append p s), data_append, List.drop_left, mk_data]

/-! ## Split lemmas -/

theorem splitCharList_cons (sep c : Char) (rest : List Char) :
    splitCharList sep (c :: rest)
      = if c = sep then [] :: splitCharList sep rest
        else (c :: (splitCharList sep rest).headD [])
          :: (splitCharList sep rest).tail := rfl

theorem splitCharList_no_sep {sep : Char} :
    ∀ l : List Char, (∀ c ∈ l, ¬ c = sep) → splitCharList sep l = [l] := by
  intro l
  induction l with
  | nil => intro _; rfl
  | cons c rest ih =>
    intro h
    have hrest := ih fun x hx => h x (List.mem_cons_of_mem _ hx)
    rw [splitCharList_cons, if_neg (h c (List.mem_cons_self _ _)), hrest]
    rfl

theorem splitCharList_append_sep {sep : Char} :
    ∀ (l₁ l₂ : List Char), (∀ c ∈ l₁, ¬ c = sep) →
    splitCharList sep (l₁ ++ sep :: l₂) = l₁ :: splitCharList sep l₂ := by
  intro l₁
  induction l₁ with
  | nil =>
    intro l₂ _
    rw [List.nil_append, splitCharList_cons, if_pos rfl]
  | cons c rest ih =>
    intro l₂ h
    have hrest := ih l₂ fun x hx => h x (List.mem_cons_of_mem _ hx)
    rw [List.cons_append, splitCharList_cons,
      if_neg (h c (List.mem_cons_self _ _)), hrest]
    rfl

/-! ## Map-insert lemmas -/

theorem mapInsert_not_mem :
    ∀ (m : List (String × String)) (k v : String),
    ¬ k ∈ m.map Prod.fst → mapInsert m k v = m ++ [(k, v)] := by
  intro m
  induction m with
  | nil => intro k v _; rfl
  | cons kv rest ih =>
    intro k v h
    simp only [List.map_cons, List.mem_cons] at h
    push_neg at h
    simp only [mapInsert]
    rw [if_neg (fun he => h.1 (by rw [he]))]
    rw [ih k v h.2]
    rfl

/-! ## Wire-codec round-trip lemmas -/

/-! ## Wire-codec round-trip lemmas -/

theorem readBytes_exact {n : Nat} {l : List Nat} (rest : List Nat)
    (h : l.length = n) : readBytes n (l ++ rest) = some (l, rest) := by
  subst h
  unfold readBytes
  rw [if_neg (by simp)]
  rw [List.take_left, List.drop_left]

theorem map_ofNat_toNat (cs : List Char) :
    (cs.map Char.toNat).map Char.ofNat = cs := by
  rw [List.map_map]
  have h : cs.map (Char.ofNat ∘ Char.toNat) = cs.map id :=
    List.map_congr_left fun c _ => Char.ofNat_toNat c
  rw [h, List.map_id]

theorem map_comp_ofNat_toNat (cs : List Char) :
    cs.map (Char.ofNat ∘ Char.toNat) = cs := by
  rw [← List.map_map]
  exact map_ofNat_toNat cs

theorem readEntries_encEntries :
    ∀ (bag : List (String × String)) (tail : List Nat),
    (∀ kv ∈ bag, kv.1.data.length < 2 ^ 32 ∧ kv.2.data.length < 2 ^ 32) →
    readEntries bag.length (encEntries bag ++ tail) = some (bag, tail) := by
  intro bag
  induction bag with
  | nil => intro tail _; simp [readEntries, encEntries]
  | cons kv rest ih =>
    intro tail h
    obtain ⟨hk, hv⟩ := h kv (List.mem_cons_self _ _)
    have hrest := fun x hx => h x (List.mem_cons_of_mem _ hx)
    obtain ⟨k, v⟩ := kv
    have e₁ : beUint (beBytes 4 k.data.length) = k.data.length :=
      beUint_beBytes 4 _ (by norm_num; exact hk)
    have e₂ : beUint (beBytes 4 v.data.length) = v.data.length :=
      beUint_beBytes 4 _ (by norm_num; exact hv)
    simp only [List.length_cons, readEntries, encEntries, encEntry,
      List.append_assoc]
    rw [readBytes_exact _ (beBytes_length 4 _)]
    simp only [Option.bind_eq_bind, Option.some_bind, e₁]
    rw [readBytes_exact _ (by simp)]
    simp only [Option.some_bind]
    rw [readBytes_exact _ (beBytes_length 4 _)]
    simp only [Option.some_bind, e₂]
    rw [readBytes_exact _ (by simp)]
    simp only [Option.some_bind]
    rw [ih tail hrest]
    simp [map_comp_ofNat_toNat, map_ofNat_toNat]

set_option maxHeartbeats 1000000 in
theorem wireUnmarshal_wireMarshal (st : TracerState)
    (hhi : st.traceIdHi < 2 ^ 64) (hlo : st.traceIdLo < 2 ^ 64)
    (hsid : st.spanId < 2 ^ 64) (hbag : boundedBaggage st.baggageItems) :
    wireUnmarshal (wireMarshal st) = some st := by
  obtain ⟨hi, lo, sid, smp, bag⟩ := st
  obtain ⟨hcnt, hentries⟩ := hbag
  simp only at hhi hlo hsid hcnt hentries
  have e₁ : beUint (beBytes 8 hi) = hi :=
    beUint_beBytes 8 _ (by norm_num; exact hhi)
  have e₂ : beUint (beBytes 8 lo) = lo :=
    beUint_beBytes 8 _ (by norm_num; exact hlo)
  have e₃ : beUint (beBytes 8 sid) = sid :=
    beUint_beBytes 8 _ (by norm_num; exact hsid)
  have e₄ : beUint (beBytes 4 bag.length) = bag.length :=
    beUint_beBytes 4 _ (by norm_num; exact hcnt)
  simp only [wireUnmarshal, wireMarshal]
  rw [show ((1 : Nat) :: beBytes 8 hi) ++ beBytes 8 lo
      ++ beBytes 8 sid ++ [if smp then 1 else 0]
      ++ beBytes 4 bag.length ++ encEntries bag
    = [1] ++ (beBytes 8 hi ++ (beBytes 8 lo
      ++ (beBytes 8 sid ++ ([if smp then 1 else 0]
      ++ (beBytes 4 bag.length
      ++ (encEntries bag ++ [])))))) by simp]
  rw [readBytes_exact _ (by simp)]
  simp only [Option.bind_eq_bind, Option.some_bind, if_pos rfl]
  rw [readBytes_exact _ (beBytes_length 8 _)]
  simp only [Option.some_bind]
  rw [readBytes_exact _ (beBytes_length 8 _)]
  simp only [Option.some_bind]
  rw [readBytes_exact _ (beBytes_length 8 _)]
  simp only [Option.some_bind]
  rw [readBytes_exact _ (by simp)]
  simp only [Option.some_bind]
  simp only [if_true]
  cases smp <;>
    (rw [readBytes_exact _ (beBytes_length 4 _)];
     simp only [Option.some_bind, Option.bind_eq_bind, e₄];
     rw [readEntries_encEntries _ _ hentries];
     simp only [Option.some_bind, Option.bind_eq_bind, if_pos rfl, e₁, e₂, e₃];
     simp)

theorem wireMarshal_ne_nil (st : TracerState) : ¬ wireMarshal st = [] := by
  simp [wireMarshal]

theorem reassembleTraceID (sc : SpanContext) (h : sc.traceID < 2 ^ 128) :
    beUint (beBytes 8 (wireStateOf sc).traceIdHi ++ beBytes 8 (wireStateOf sc).traceIdLo)
      = sc.traceID := by
  have hsplit : beBytes 16 sc.traceID
      = beBytes 8 (sc.traceID / 2 ^ 64) ++ beBytes 8 (sc.traceID % 2 ^ 64) := by
    simpa using beBytes_split 8 8 sc.traceID
  have hdivlt : sc.traceID / 2 ^ 64 < 2 ^ 64 := by
    rw [Nat.div_lt_iff_lt_mul (by positivity)]
    calc sc.traceID < 2 ^ 128 := h
      _ = 2 ^ 64 * 2 ^ 64 := by norm_num
  have hmodlt : sc.traceID % 2 ^ 64 < 2 ^ 64 := Nat.mod_lt _ (by positivity)
  have hhi : (wireStateOf sc).traceIdHi = sc.traceID / 2 ^ 64 := by
    simp only [wireStateOf]
    rw [hsplit, List.take_left' (beBytes_length 8 _),
      beUint_beBytes 8 _ (by norm_num; exact hdivlt)]
  have hlo : (wireStateOf sc).traceIdLo = sc.traceID % 2 ^ 64 := by
    simp only [wireStateOf]
    rw [hsplit, List.drop_left' (beBytes_length 8 _),
      beUint_beBytes 8 _ (by norm_num; exact hmodlt)]
  rw [hhi, hlo, ← hsplit, beUint_beBytes 16 _ (by norm_num; exact h)]

set_option maxHeartbeats 2000000 in
/-- Claim C2 (confirmed, with the `wire.TracerState` protobuf codec
modelled from the spec): for every valid `SpanContext` — trace id fitting
128 bits, span id fitting 64 bits, baggage within the wire bounds,
payload length within the 4-byte prefix — `binaryPropagator.Extract`
applied to the byte stream written by `binaryPropagator.Inject` returns
the same trace id (reassembled from the two 64-bit big-endian halves in
the encode order), span id, sampled flag and baggage, for either
reader error discipline, including empty baggage. -/
theorem c2_binary_roundtrip (sc : SpanContext) (ewd : Bool)
    (h₁ : sc.traceID < 2 ^ 128) (h₂ : sc.spanID < 2 ^ 64)
    (h₃ : boundedBaggage sc.baggage)
    (h₄ : (wireMarshal (wireStateOf sc)).length < 2 ^ 32) :
    binaryExtract ⟨binaryInject sc, ewd⟩ = Except.ok sc := by
  have hhi : (wireStateOf sc).traceIdHi < 2 ^ 64 := by
    simp only [wireStateOf]
    calc beUint ((beBytes 16 sc.traceID).take 8)
        < 256 ^ ((beBytes 16 sc.traceID).take 8).length :=
          beUint_lt _ fun x hx =>
            beBytes_mem_lt 16 _ x (List.take_subset _ _ hx)
      _ ≤ 256 ^ 8 := Nat.pow_le_pow_right (by norm_num)
          (by simp [List.length_take, beBytes_length])
      _ = 2 ^ 64 := by norm_num
  have hlo : (wireStateOf sc).traceIdLo < 2 ^ 64 := by
    simp only [wireStateOf]
    calc beUint ((beBytes 16 sc.traceID).drop 8)
        < 256 ^ ((beBytes 16 sc.traceID).drop 8).length :=
          beUint_lt _ fun x hx =>
            beBytes_mem_lt 16 _ x (List.drop_subset _ _ hx)
      _ ≤ 256 ^ 8 := Nat.pow_le_pow_right (by norm_num)
          (by simp [List.length_drop, beBytes_length])
      _ = 2 ^ 64 := by norm_num
  have hsid : (wireStateOf sc).spanId < 2 ^ 64 := by
    simp only [wireStateOf]; exact h₂
  have hbag : boundedBaggage (wireStateOf sc).baggageItems := by
    simp only [wireStateOf]; exact h₃
  have hum := wireUnmarshal_wireMarshal (wireStateOf sc) hhi hlo hsid hbag
  obtain ⟨b, hbdef⟩ : ∃ b, wireMarshal (wireStateOf sc) = b := ⟨_, rfl⟩
  rw [hbdef] at hum h₄
  have hbne : ¬ b = [] := hbdef ▸ wireMarshal_ne_nil (wireStateOf sc)
  have hmod : b.length % 2 ^ 32 = b.length := Nat.mod_eq_of_lt h₄
  have hinj : binaryInject sc = beBytes 4 b.length ++ b := by
    simp only [binaryInject, hbdef, hmod]
  rw [hinj]
  have hrf : readFull4 ⟨beBytes 4 b.length ++ b, ewd⟩
      = some (b.length, ⟨b, ewd⟩) := by
    unfold readFull4
    rw [if_neg (by simp [beBytes_length])]
    rw [List.take_left' (beBytes_length 4 _), List.drop_left' (beBytes_length 4 _),
      beUint_beBytes 4 _ (by norm_num; exact h₄)]
  unfold binaryExtract
  rw [hrf]
  have hro : readOnce ⟨b, ewd⟩ b.length = (b, false, ⟨[], ewd⟩) := by
    unfold readOnce
    rw [if_neg (by simp [hbne])]
    simp [List.take_length]
  simp only [hro, Bool.false_eq_true, if_false, Nat.sub_self,
    List.replicate_zero, List.append_nil, hum]
  rw [reassembleTraceID sc h₁]
  simp only [wireStateOf]

/-- Witness for C2 at a concrete context with empty baggage. -/
theorem c2_witness :
    binaryExtract ⟨binaryInject ⟨1, 2, true, []⟩, false⟩
      = Except.ok ⟨1, 2, true, []⟩ :=
  c2_binary_roundtrip ⟨1, 2, true, []⟩ false (by norm_num) (by norm_num)
    (by decide) (by decide)

/-- Claim C5 (corrected): the error discipline of
`binaryPropagator.Extract` over an arbitrary reader.  A failed 4-byte
length read is `ContextCorrupted`; a payload read that reports an error
having consumed zero bytes is `ContextNotFound`; a read error alongside
at least one consumed byte is `ContextCorrupted`; and a failure to
deserialize the zero-padded buffer is `ContextCorrupted`.  Contrary to
the claim, a short read returned without an error is not compared
against the expected length: it proceeds to deserialization of the
zero-padded buffer (see the counterexample). -/
theorem c5_binary_extract_errors (bytes : List Nat) (ewd : Bool) :
    (bytes.length < 4 →
      binaryExtract ⟨bytes, ewd⟩ = Except.error OTError.contextCorrupted) ∧
    (4 ≤ bytes.length → bytes.drop 4 = [] →
      binaryExtract ⟨bytes, ewd⟩ = Except.error OTError.contextNotFound) ∧
    (4 ≤ bytes.length → ¬ bytes.drop 4 = [] → ewd = true →
      bytes.length - 4 < beUint (bytes.take 4) →
      binaryExtract ⟨bytes, ewd⟩ = Except.error OTError.contextCorrupted) ∧
    (4 ≤ bytes.length → ¬ bytes.drop 4 = [] →
      (ewd = false ∨ beUint (bytes.take 4) ≤ bytes.length - 4) →
      wireUnmarshal ((bytes.drop 4).take (beUint (bytes.take 4))
        ++ List.replicate
          (beUint (bytes.take 4) - ((bytes.drop 4).take (beUint (bytes.take 4))).length)
          0) = none →
      binaryExtract ⟨bytes, ewd⟩ = Except.error OTError.contextCorrupted) := by
  have hrf4 : readFull4 ⟨bytes, ewd⟩ = if bytes.length < 4 then none
      else some (beUint (bytes.take 4), ⟨bytes.drop 4, ewd⟩) := rfl
  have hro4 : ∀ (l : List Nat) (req : Nat), readOnce ⟨l, ewd⟩ req
      = if l.isEmpty then ([], true, ⟨l, ewd⟩)
        else if (l.take req).length < req ∧ ewd = true
          then (l.take req, true, ⟨l.drop req, ewd⟩)
          else (l.take req, false, ⟨l.drop req, ewd⟩) := fun _ _ => rfl
  refine ⟨?_, ?_, ?_, ?_⟩
  · intro h
    unfold binaryExtract
    rw [hrf4, if_pos h]
  · intro h₄ hd
    unfold binaryExtract
    rw [hrf4, if_neg (by omega)]
    have hro : readOnce ⟨bytes.drop 4, ewd⟩ (beUint (bytes.take 4))
        = ([], true, ⟨bytes.drop 4, ewd⟩) := by
      rw [hro4, if_pos (by simp [hd])]
    simp [hro]
  · intro h₄ hd hewd hlt
    unfold binaryExtract
    rw [hrf4, if_neg (by omega)]
    have hlen : ((bytes.drop 4).take (beUint (bytes.take 4))).length
        = bytes.length - 4 := by
      simp only [List.length_take, List.length_drop]
      omega
    have hro : readOnce ⟨bytes.drop 4, ewd⟩ (beUint (bytes.take 4))
        = ((bytes.drop 4).take (beUint (bytes.take 4)), true,
            ⟨(bytes.drop 4).drop (beUint (bytes.take 4)), ewd⟩) := by
      rw [hro4, if_neg (by simp [hd]), if_pos ⟨by omega, hewd⟩]
    have hpos : 0 < ((bytes.drop 4).take (beUint (bytes.take 4))).length := by
      rw [hlen]
      have hne : ¬ bytes.length - 4 = 0 := by
        intro h0
        apply hd
        apply List.eq_nil_of_length_eq_zero
        simp only [List.length_drop]
        omega
      omega
    simp only [hro]
    rw [if_pos trivial, if_pos hpos]
  · intro h₄ hd hnoerr hum
    unfold binaryExtract
    rw [hrf4, if_neg (by omega)]
    have hlen : ((bytes.drop 4).take (beUint (bytes.take 4))).length
        = min (beUint (bytes.take 4)) (bytes.length - 4) := by
      simp only [List.length_take, List.length_drop]
    have hro : readOnce ⟨bytes.drop 4, ewd⟩ (beUint (bytes.take 4))
        = ((bytes.drop 4).take (beUint (bytes.take 4)), false,
            ⟨(bytes.drop 4).drop (beUint (bytes.take 4)), ewd⟩) := by
      rw [hro4, if_neg (by simp [hd]), if_neg ?hcond]
      case hcond =>
        rcases hnoerr with h | h
        · simp [h]
        · intro hcontra
          have h₁ := hcontra.1
          rw [hlen] at h₁
          omega
    simp only [hro, Bool.false_eq_true, if_false, hum]

/-- Witness for C5: a read error after one consumed byte (third
conjunct) yields `ContextCorrupted`. -/
theorem c5_witness :
    binaryExtract ⟨[0, 0, 0, 5, 9], true⟩ = Except.error OTError.contextCorrupted :=
  (c5_binary_extract_errors [0, 0, 0, 5, 9] true).2.2.1 (by norm_num)
    (by decide) rfl (by decide)

/-- Counterexample to C5 as stated: a length prefix of 38 with only 31
payload bytes available and a reader that returns the short count
without an error.  The zero-padded buffer deserializes (the padding
reads as one empty baggage entry), so the truncated payload is silently
accepted as a valid context instead of `ContextCorrupted`. -/
theorem c5_counterexample :
    binaryExtract ⟨[0, 0, 0, 38] ++ (1 :: List.replicate 24 0 ++ [0]
        ++ [0, 0, 0, 1] ++ [0, 0]), false⟩
      = Except.ok ⟨0, 0, false, [("", "")]⟩ ∧
    ¬ binaryExtract ⟨[0, 0, 0, 38] ++ (1 :: List.replicate 24 0 ++ [0]
        ++ [0, 0, 0, 1] ++ [0, 0]), false⟩
      = Except.error OTError.contextCorrupted := by
  have h : binaryExtract ⟨[0, 0, 0, 38] ++ (1 :: List.replicate 24 0 ++ [0]
        ++ [0, 0, 0, 1] ++ [0, 0]), false⟩
      = Except.ok (⟨0, 0, false, [("", "")]⟩ : SpanContext) := by
    rfl
  refine ⟨h, ?_⟩
  rw [h]
  simp

/-- Claim C4 (code bug): a malformed `traceparent` value does not fail
the extraction with `ContextCorrupted`.  The first scan's handler does
return the corrupted error, but `textMapPropagator.Extract` overwrites
`err` with the result of the second scan, so a carrier holding only a
`traceparent` with version `01` extracts to `ContextNotFound`; and a
value with five hyphen-separated parts (rather than exactly four) whose
first four parts are well-formed is accepted outright, because the code
checks `len(parts) < 4` instead of an exact length. -/
theorem c4_malformed_traceparent_eval :
    textMapExtract [("traceparent",
        "01-00000000000000000000000000000000-0000000000000000-01")]
      = Except.error OTError.contextNotFound ∧
    textMapExtract [("traceparent",
        "00-00000000000000000000000000000000-0000000000000000-01-00")]
      = Except.ok ⟨0, 0, true, []⟩ :=
  ⟨rfl, rfl⟩

/-- Claim C7 (confirmed): the identifier generator never surfaces an
error.  `generateSeed` is total: with a failed crypto read it falls back
to the wall-clock value and reports the degradation (second component
true exactly when the crypto source failed); `randomID` and `randomID2`
are total and return 64-bit values on every generator state. -/
theorem c7_generator_total :
    (∀ now : Int, generateSeed none now = (now, true)) ∧
    (∀ (b : List Nat) (now : Int),
      generateSeed (some b) now = (int64OfUint64 (leUint (b.take 8)), false)) ∧
    (∀ (r : Option (List Nat)) (now : Int), (generateSeed r now).2 = r.isNone) ∧
    (∀ g : RandGen, randomID g = randInt63 g ∧ (randomID g).1 < 2 ^ 64) ∧
    (∀ g : RandGen,
      (randomID2 g).1.1 < 2 ^ 64 ∧ (randomID2 g).1.2 < 2 ^ 64) := by
  refine ⟨fun _ => rfl, fun _ _ => rfl, ?_, ?_, ?_⟩
  · intro r _
    cases r <;> rfl
  · intro g
    refine ⟨rfl, ?_⟩
    have : (randomID g).1 < 2 ^ 63 := by
      simp only [randomID, randInt63]
      exact Nat.mod_lt _ (by positivity)
    omega
  · intro g
    constructor
    · have : (randomID2 g).1.1 < 2 ^ 63 := by
        simp only [randomID2, randInt63]
        exact Nat.mod_lt _ (by positivity)
      omega
    · have : (randomID2 g).1.2 < 2 ^ 63 := by
        simp only [randomID2, randInt63]
        exact Nat.mod_lt _ (by positivity)
      omega

/-- Claim C8 (confirmed, with `ChangeFlushFrequency` modelled from the
spec): `SetTestingMode(true)` changes the recorder's flush period to the
testing-mode frequency of one second, `SetTestingMode(false)` to the
normal-mode frequency of one minute. -/
theorem c8_testing_mode_frequency (a : Agent) :
    (setTestingMode a true).recorder.flushFrequency = testingModeFrequency ∧
    (setTestingMode a false).recorder.flushFrequency = nonTestingModeFrequency ∧
    testingModeFrequency = 1000000000 ∧
    nonTestingModeFrequency = 60 * 1000000000 ∧
    (setTestingMode a true).testingMode = true ∧
    (setTestingMode a false).testingMode = false :=
  ⟨rfl, rfl, rfl, rfl, rfl, rfl⟩

/-- Claim C9 (confirmed, with the tracer's `StartSpan` parent/sampling
rule modelled from the spec): `NewAgent` installs a sampling predicate
that is constantly true, so every root span context started through the
agent's tracer, and by inheritance every descendant context, has
`Sampled = true`. -/
theorem c9_agent_spans_sampled (sc : SpanContext) (h : AgentSpan sc) :
    sc.sampled = true := by
  induction h with
  | root tid sid => rfl
  | child p tid sid _ ih =>
    simpa [startSpanContext] using ih

/-- Witness for C9 at a concrete root span context. -/
theorem c9_witness :
    (startSpanContext newAgentShouldSample none 5 7).sampled = true :=
  c9_agent_spans_sampled _ (AgentSpan.root 5 7)

/-! ## The injected `traceparent` value -/

theorem singleton_append_cons {α : Type} (a : α) (l : List α) :
    [a] ++ l = a :: l := rfl

theorem tp_value_data (h32 h16 : List Char) (fl : String) :
    ("00" ++ "-" ++ String.mk h32 ++ "-" ++ String.mk h16 ++ "-" ++ fl).data
      = "00".data ++ '-' :: (h32 ++ '-' :: (h16 ++ '-' :: fl.data)) := by
  simp only [data_append, data_mk, List.append_assoc]
  rfl

theorem splitOnChar_tpValue (h32 h16 : List Char) (fl : String)
    (hh32 : ∀ c ∈ h32, ¬ c = '-') (hh16 : ∀ c ∈ h16, ¬ c = '-')
    (hfl : ∀ c ∈ fl.data, ¬ c = '-') :
    splitOnChar '-' ("00" ++ "-" ++ String.mk h32 ++ "-" ++ String.mk h16
        ++ "-" ++ fl)
      = ["00", String.mk h32, String.mk h16, fl] := by
  unfold splitOnChar
  rw [tp_value_data]
  rw [splitCharList_append_sep _ _ (by decide)]
  rw [splitCharList_append_sep _ _ hh32]
  rw [splitCharList_append_sep _ _ hh16]
  rw [splitCharList_no_sep _ hfl]
  simp only [List.map_cons, List.map_nil, mk_data]

theorem tpValue_length (h32 h16 : List Char) (fl : String)
    (hl32 : h32.length = 32) (hl16 : h16.length = 16) (hlf : fl.data.length = 2) :
    ("00" ++ "-" ++ String.mk h32 ++ "-" ++ String.mk h16 ++ "-" ++ fl).length
      = 55 := by
  rw [length_data, tp_value_data]
  simp [hl32, hl16, hlf]

theorem removeDashes_uuidString (tid : Nat) :
    removeDashes (uuidString tid) = String.mk (hexPadChars 32 tid) := by
  unfold removeDashes uuidString
  rw [data_mk]
  refine congrArg String.mk ?_
  have hno := hexPadChars_no_dash 32 tid
  have hfil : ∀ sub : List Char, (∀ c ∈ sub, c ∈ hexPadChars 32 tid) →
      sub.filter (fun c => ¬ c = '-') = sub := by
    intro sub hsub
    apply List.filter_eq_self.mpr
    intro c hc
    simpa using hno c (hsub c hc)
  simp only [List.filter_append, List.filter_cons]
  rw [if_neg (by simp), if_neg (by simp), if_neg (by simp), if_neg (by simp)]
  rw [hfil _ (fun c hc => List.take_subset _ _ hc),
    hfil _ (fun c hc => List.drop_subset _ _ (List.take_subset _ _ hc)),
    hfil _ (fun c hc => List.drop_subset _ _ (List.take_subset _ _ hc)),
    hfil _ (fun c hc => List.drop_subset _ _ (List.take_subset _ _ hc)),
    hfil _ (fun c hc => List.drop_subset _ _ hc)]
  have h₁ : ((hexPadChars 32 tid).drop 16).take 4 ++ (hexPadChars 32 tid).drop 20
      = (hexPadChars 32 tid).drop 16 := by
    have := List.take_append_drop 4 ((hexPadChars 32 tid).drop 16)
    rwa [List.drop_drop] at this
  have h₂ : ((hexPadChars 32 tid).drop 12).take 4 ++ (hexPadChars 32 tid).drop 16
      = (hexPadChars 32 tid).drop 12 := by
    have := List.take_append_drop 4 ((hexPadChars 32 tid).drop 12)
    rwa [List.drop_drop] at this
  have h₃ : ((hexPadChars 32 tid).drop 8).take 4 ++ (hexPadChars 32 tid).drop 12
      = (hexPadChars 32 tid).drop 8 := by
    have := List.take_append_drop 4 ((hexPadChars 32 tid).drop 8)
    rwa [List.drop_drop] at this
  simp only [List.append_assoc]
  rw [h₁, h₂, h₃]
  exact List.take_append_drop 8 (hexPadChars 32 tid)

/-! ## Extraction scan step lemmas -/

theorem aLow_tp : asciiLower traceParentKey = traceParentKey := by decide

theorem aLow_f1 : asciiLower fieldNameTraceID = fieldNameTraceID := by decide

theorem aLow_f2 : asciiLower fieldNameSpanID = fieldNameSpanID := by decide

theorem aLow_f3 : asciiLower fieldNameSampled = fieldNameSampled := by decide

theorem extractScan1_other (st : ExtractState) {k : String} (v : String)
    (h : ¬ asciiLower k = traceParentKey) : extractScan1 st k v = (st, none) := by
  unfold extractScan1
  rw [if_neg h]
  cases st
  simp only [Prod.mk.injEq, ExtractState.mk.injEq, and_true, true_and]
  omega

theorem extractScan2_traceid (st : ExtractState) (v : String) {tid : Nat}
    (h : uuidParse v = some tid) :
    extractScan2 st fieldNameTraceID v
      = ({ st with
          traceID := tid,
          requiredFieldCount := st.requiredFieldCount + 1 }, none) := by
  unfold extractScan2
  rw [if_pos aLow_f1, h]

theorem extractScan2_spanid (st : ExtractState) (v : String) {sid : Nat}
    (h : parseUintHex64 v = some sid) :
    extractScan2 st fieldNameSpanID v
      = ({ st with
          spanID := sid,
          requiredFieldCount := st.requiredFieldCount + 1 }, none) := by
  unfold extractScan2
  rw [if_neg (by rw [aLow_f2]; decide), if_pos aLow_f2, h]

theorem extractScan2_sampled (st : ExtractState) (v : String) {b : Bool}
    (h : parseBool v = some b) :
    extractScan2 st fieldNameSampled v
      = ({ st with
          sampled := b,
          requiredFieldCount := st.requiredFieldCount + 1 }, none) := by
  unfold extractScan2
  rw [if_neg (by rw [aLow_f3]; decide), if_neg (by rw [aLow_f3]; decide),
    if_pos aLow_f3, h]

theorem extractScan2_baggage_step (st : ExtractState) (k v : String)
    (hk : asciiLower k = k) :
    extractScan2 st (prefixBaggage ++ k) v
      = ({ st with decodedBaggage := mapInsert st.decodedBaggage k v }, none) := by
  have hl : asciiLower (prefixBaggage ++ k) = prefixBaggage ++ k := by
    rw [asciiLower_bkey, hk]
  unfold extractScan2
  rw [hl]
  simp only [if_neg (bkey_ne_fieldTraceID k), if_neg (bkey_ne_fieldSpanID k),
    if_neg (bkey_ne_fieldSampled k), hasPfx_append, if_true, trimPfx_append]
  cases st
  simp only [Prod.mk.injEq, ExtractState.mk.injEq, and_true, true_and]
  omega

theorem extractScan2_other (st : ExtractState) (k v : String)
    (h1 : ¬ asciiLower k = fieldNameTraceID)
    (h2 : ¬ asciiLower k = fieldNameSpanID)
    (h3 : ¬ asciiLower k = fieldNameSampled)
    (h4 : hasPfx prefixBaggage (asciiLower k) = false) :
    extractScan2 st k v = (st, none) := by
  unfold extractScan2
  simp only [if_neg h1, if_neg h2, if_neg h3, h4, Bool.false_eq_true, if_false]
  cases st
  simp only [Prod.mk.injEq, ExtractState.mk.injEq, and_true, true_and]
  omega

/-! ## runKeys lemmas -/

theorem runKeys_append
    (f : ExtractState → String → String → ExtractState × Option OTError)
    (l₁ l₂ : List (String × String)) : ∀ st,
    runKeys f st (l₁ ++ l₂)
      = match runKeys f st l₁ with
        | (st', none) => runKeys f st' l₂
        | (st', some e) => (st', some e) := by
  induction l₁ with
  | nil => intro st; rfl
  | cons kv rest ih =>
    intro st
    obtain ⟨k, v⟩ := kv
    show runKeys f st ((k, v) :: (rest ++ l₂)) = _
    rw [show runKeys f st ((k, v) :: (rest ++ l₂))
        = (match f st k v with
          | (st', none) => runKeys f st' (rest ++ l₂)
          | (st', some e) => (st', some e)) from rfl]
    rw [show runKeys f st ((k, v) :: rest)
        = (match f st k v with
          | (st', none) => runKeys f st' rest
          | (st', some e) => (st', some e)) from rfl]
    obtain ⟨st', e⟩ := f st k v
    cases e with
    | none => exact ih st'
    | some er => rfl

theorem runKeys_cons
    (f : ExtractState → String → String → ExtractState × Option OTError)
    (st : ExtractState) (k v : String) (rest : List (String × String)) :
    runKeys f st ((k, v) :: rest)
      = match f st k v with
        | (st', none) => runKeys f st' rest
        | (st', some e) => (st', some e) := rfl

theorem runKeys_scan1_skip : ∀ (l : List (String × String)) (st : ExtractState),
    (∀ kv ∈ l, ¬ asciiLower kv.1 = traceParentKey) →
    runKeys extractScan1 st l = (st, none) := by
  intro l
  induction l with
  | nil => intro st _; rfl
  | cons kv rest ih =>
    intro st h
    obtain ⟨k, v⟩ := kv
    rw [runKeys_cons, extractScan1_other st v (h (k, v) (List.mem_cons_self _ _))]
    exact ih st fun x hx => h x (List.mem_cons_of_mem _ hx)

theorem runKeys_scan2_baggage :
    ∀ (bag : List (String × String)) (st : ExtractState),
    (∀ kv ∈ bag, asciiLower kv.1 = kv.1) →
    (∀ kv ∈ bag, ¬ kv.1 ∈ st.decodedBaggage.map Prod.fst) →
    (bag.map Prod.fst).Nodup →
    runKeys extractScan2 st (bag.map fun kv => (prefixBaggage ++ kv.1, kv.2))
      = ({ st with decodedBaggage := st.decodedBaggage ++ bag }, none) := by
  intro bag
  induction bag with
  | nil =>
    intro st _ _ _
    simp only [List.map_nil, List.append_nil]
    rfl
  | cons kv rest ih =>
    intro st hlow hfresh hnodup
    obtain ⟨k, v⟩ := kv
    simp only [List.map_cons]
    rw [runKeys_cons,
      extractScan2_baggage_step st k v (hlow (k, v) (List.mem_cons_self _ _))]
    rw [mapInsert_not_mem _ _ _ (hfresh (k, v) (List.mem_cons_self _ _))]
    have hlow' : ∀ kv ∈ rest, asciiLower kv.1 = kv.1 :=
      fun x hx => hlow x (List.mem_cons_of_mem _ hx)
    have hnd : ¬ k ∈ rest.map Prod.fst ∧ (rest.map Prod.fst).Nodup := by
      rw [List.map_cons] at hnodup
      exact List.nodup_cons.mp hnodup
    have hnodup' : (rest.map Prod.fst).Nodup := hnd.2
    have hk_not : ¬ k ∈ rest.map Prod.fst := hnd.1
    have hfresh' : ∀ kv ∈ rest,
        ¬ kv.1 ∈ (st.decodedBaggage ++ [(k, v)]).map Prod.fst := by
      intro x hx
      simp only [List.map_append, List.mem_append, List.map_cons, List.map_nil,
        List.mem_singleton]
      push_neg
      refine ⟨fun hc => hfresh x (List.mem_cons_of_mem _ hx) hc, ?_⟩
      intro hc
      exact hk_not (hc ▸ List.mem_map_of_mem Prod.fst hx)
    show runKeys extractScan2
        { st with decodedBaggage := st.decodedBaggage ++ [(k, v)] }
        (rest.map fun kv => (prefixBaggage ++ kv.1, kv.2)) = _
    rw [ih _ hlow' hfresh' hnodup']
    simp

/-! ## Structure of the injected carrier -/

theorem foldl_mapInsert_bkeys :
    ∀ (bag : List (String × String)) (acc : List (String × String)),
    (∀ kv ∈ bag, ¬ (prefixBaggage ++ kv.1) ∈ acc.map Prod.fst) →
    (bag.map Prod.fst).Nodup →
    bag.foldl (fun c kv => mapInsert c (prefixBaggage ++ kv.1) kv.2) acc
      = acc ++ bag.map (fun kv => (prefixBaggage ++ kv.1, kv.2)) := by
  intro bag
  induction bag with
  | nil => intro acc _ _; simp
  | cons kv rest ih =>
    intro acc hfresh hnodup
    obtain ⟨k, v⟩ := kv
    simp only [List.foldl_cons]
    rw [mapInsert_not_mem _ _ _ (hfresh (k, v) (List.mem_cons_self _ _))]
    have hnd : ¬ k ∈ rest.map Prod.fst ∧ (rest.map Prod.fst).Nodup := by
      rw [List.map_cons] at hnodup
      exact List.nodup_cons.mp hnodup
    have hfresh' : ∀ kv ∈ rest,
        ¬ (prefixBaggage ++ kv.1) ∈ (acc ++ [(prefixBaggage ++ k, v)]).map Prod.fst := by
      intro x hx
      simp only [List.map_append, List.mem_append, List.map_cons, List.map_nil,
        List.mem_singleton]
      push_neg
      refine ⟨fun hc => hfresh x (List.mem_cons_of_mem _ hx) hc, ?_⟩
      intro hc
      exact hnd.1 (string_append_left_cancel hc ▸ List.mem_map_of_mem Prod.fst hx)
    rw [ih _ hfresh' hnd.2]
    simp

theorem textMapInject_eq (sc : SpanContext)
    (hnodup : (sc.baggage.map Prod.fst).Nodup) :
    textMapInject sc
      = [(fieldNameTraceID, String.mk (hexPadChars 32 sc.traceID)),
         (fieldNameSpanID, formatUintHex sc.spanID),
         (fieldNameSampled, formatBool sc.sampled),
         (traceParentKey, "00" ++ "-" ++ String.mk (hexPadChars 32 sc.traceID)
           ++ "-" ++ String.mk (hexPadChars 16 sc.spanID) ++ "-"
           ++ (if sc.sampled then "01" else "00"))]
        ++ sc.baggage.map (fun kv => (prefixBaggage ++ kv.1, kv.2)) := by
  simp only [textMapInject, removeDashes_uuidString]
  have e₁ : ∀ u : String, mapInsert [] fieldNameTraceID u
      = [(fieldNameTraceID, u)] := fun u => rfl
  have e₂ : ∀ (u v : String), mapInsert [(fieldNameTraceID, u)] fieldNameSpanID v
      = [(fieldNameTraceID, u), (fieldNameSpanID, v)] := by
    intro u v
    unfold mapInsert
    rw [if_neg (by decide)]
    rfl
  have e₃ : ∀ (u v w : String),
      mapInsert [(fieldNameTraceID, u), (fieldNameSpanID, v)] fieldNameSampled w
      = [(fieldNameTraceID, u), (fieldNameSpanID, v), (fieldNameSampled, w)] := by
    intro u v w
    unfold mapInsert
    rw [if_neg (by decide)]
    unfold mapInsert
    rw [if_neg (by decide)]
    rfl
  have e₄ : ∀ (u v w x : String),
      mapInsert [(fieldNameTraceID, u), (fieldNameSpanID, v), (fieldNameSampled, w)]
        traceParentKey x
      = [(fieldNameTraceID, u), (fieldNameSpanID, v), (fieldNameSampled, w),
         (traceParentKey, x)] := by
    intro u v w x
    unfold mapInsert
    rw [if_neg (by decide)]
    unfold mapInsert
    rw [if_neg (by decide)]
    unfold mapInsert
    rw [if_neg (by decide)]
    rfl
  rw [e₁, e₂, e₃, e₄]
  rw [foldl_mapInsert_bkeys sc.baggage _ ?fresh hnodup]
  case fresh =>
    intro kv _
    simp only [List.map_cons, List.map_nil, List.mem_cons, List.mem_singleton,
      List.not_mem_nil]
    push_neg
    exact ⟨bkey_ne_fieldTraceID kv.1, bkey_ne_fieldSpanID kv.1,
      bkey_ne_fieldSampled kv.1, bkey_ne_traceParent kv.1, fun h => h⟩

theorem discreteOnly_inject (sc : SpanContext)
    (hnodup : (sc.baggage.map Prod.fst).Nodup) :
    discreteOnly (textMapInject sc)
      = [(fieldNameTraceID, String.mk (hexPadChars 32 sc.traceID)),
         (fieldNameSpanID, formatUintHex sc.spanID),
         (fieldNameSampled, formatBool sc.sampled)]
        ++ sc.baggage.map (fun kv => (prefixBaggage ++ kv.1, kv.2)) := by
  rw [textMapInject_eq sc hnodup]
  unfold discreteOnly
  rw [List.filter_append]
  congr 1
  apply List.filter_eq_self.mpr
  intro x hx
  obtain ⟨kv, _, rfl⟩ := List.mem_map.mp hx
  simpa using bkey_ne_traceParent kv.1

theorem compositeOnly_inject (sc : SpanContext)
    (hnodup : (sc.baggage.map Prod.fst).Nodup) :
    compositeOnly (textMapInject sc)
      = [(traceParentKey, "00" ++ "-" ++ String.mk (hexPadChars 32 sc.traceID)
          ++ "-" ++ String.mk (hexPadChars 16 sc.spanID) ++ "-"
          ++ (if sc.sampled then "01" else "00"))]
        ++ sc.baggage.map (fun kv => (prefixBaggage ++ kv.1, kv.2)) := by
  rw [textMapInject_eq sc hnodup]
  unfold compositeOnly
  rw [List.filter_append]
  congr 1
  apply List.filter_eq_self.mpr
  intro x hx
  obtain ⟨kv, _, rfl⟩ := List.mem_map.mp hx
  apply decide_eq_true
  push_neg
  exact ⟨bkey_ne_fieldTraceID kv.1, bkey_ne_fieldSpanID kv.1,
    bkey_ne_fieldSampled kv.1⟩

theorem asciiLowerChar_hexDigitChar {d : Nat} (h : d < 16) :
    asciiLowerChar (hexDigitChar d) = hexDigitChar d := by
  interval_cases d <;> decide

theorem hexCharsNoPad_mem :
    ∀ n, ∀ c ∈ hexCharsNoPad n, ∃ d, d < 16 ∧ c = hexDigitChar d := by
  intro n
  induction n using Nat.strong_induction_on with
  | _ n ih =>
    intro c hc
    by_cases h0 : n = 0
    · subst h0
      rw [hexCharsNoPad] at hc
      simp at hc
    · rw [hexCharsNoPad, dif_neg h0] at hc
      simp only [List.mem_append, List.mem_singleton] at hc
      rcases hc with hc | hc
      · exact ih _ (Nat.div_lt_self (by omega) (by norm_num)) c hc
      · exact ⟨n % 16, Nat.mod_lt _ (by norm_num), hc⟩

/-- Claim C6 (corrected): `textMapPropagator.Inject` writes exactly the
trace id as 32 lowercase hex digits with dashes stripped, the span id in
lowercase hex, the sampled flag as `"true"`/`"false"`, one composite
`traceparent` value joining `"00"`, the 32-hex trace id, the 16-hex
zero-padded span id and `"01"`/`"00"` with hyphens, and one entry per
baggage pair — but, contrary to the claim, the baggage key is written
as `ot-baggage-` followed by `k` unchanged: the code does not lower-case
the key on inject (extraction lower-cases it instead). -/
theorem c6_inject_fields (sc : SpanContext)
    (hnodup : (sc.baggage.map Prod.fst).Nodup) :
    textMapInject sc
      = [(fieldNameTraceID, String.mk (hexPadChars 32 sc.traceID)),
         (fieldNameSpanID, formatUintHex sc.spanID),
         (fieldNameSampled, formatBool sc.sampled),
         (traceParentKey, "00" ++ "-" ++ String.mk (hexPadChars 32 sc.traceID)
           ++ "-" ++ String.mk (hexPadChars 16 sc.spanID) ++ "-"
           ++ (if sc.sampled then "01" else "00"))]
        ++ sc.baggage.map (fun kv => (prefixBaggage ++ kv.1, kv.2)) ∧
    (String.mk (hexPadChars 32 sc.traceID)).length = 32 ∧
    (String.mk (hexPadChars 16 sc.spanID)).length = 16 ∧
    (∀ c ∈ hexPadChars 32 sc.traceID,
      (hexDigitVal c).isSome ∧ asciiLowerChar c = c) ∧
    (∀ c ∈ (formatUintHex sc.spanID).data,
      (hexDigitVal c).isSome ∧ asciiLowerChar c = c) ∧
    formatBool sc.sampled = (if sc.sampled then "true" else "false") := by
  refine ⟨textMapInject_eq sc hnodup, ?_, ?_, ?_, ?_, ?_⟩
  · rw [length_data, data_mk, hexPadChars_length]
  · rw [length_data, data_mk, hexPadChars_length]
  · intro c hc
    obtain ⟨d, hd, rfl⟩ := hexPadChars_mem 32 sc.traceID c hc
    exact ⟨hexDigitVal_isSome_hexDigitChar hd, asciiLowerChar_hexDigitChar hd⟩
  · intro c hc
    unfold formatUintHex at hc
    by_cases h0 : sc.spanID = 0
    · rw [h0, if_pos rfl] at hc
      have : c = '0' := by simpa using hc
      subst this
      exact ⟨by decide, by decide⟩
    · rw [if_neg h0, data_mk] at hc
      obtain ⟨d, hd, rfl⟩ := hexCharsNoPad_mem sc.spanID c hc
      exact ⟨hexDigitVal_isSome_hexDigitChar hd, asciiLowerChar_hexDigitChar hd⟩
  · rfl

/-- Witness for C6 at a concrete context. -/
theorem c6_witness :
    textMapInject ⟨0, 0, false, [("k", "v")]⟩
      = [(fieldNameTraceID, String.mk (hexPadChars 32 0)),
         (fieldNameSpanID, formatUintHex 0),
         (fieldNameSampled, formatBool false),
         (traceParentKey, "00" ++ "-" ++ String.mk (hexPadChars 32 0)
           ++ "-" ++ String.mk (hexPadChars 16 0) ++ "-"
           ++ (if false then "01" else "00"))]
        ++ [("k", "v")].map (fun kv => (prefixBaggage ++ kv.1, kv.2)) :=
  (c6_inject_fields ⟨0, 0, false, [("k", "v")]⟩ (by decide)).1

/-- Counterexample to C6 as stated: with baggage key `"A"` the injected
carrier holds the key `ot-baggage-A`, not the lower-cased
`ot-baggage-a` the claim requires. -/
theorem c6_counterexample :
    ((textMapInject ⟨0, 0, false, [("A", "v")]⟩).map Prod.fst
      = [fieldNameTraceID, fieldNameSpanID, fieldNameSampled, traceParentKey,
         "ot-baggage-A"]) ∧
    ¬ "ot-baggage-a" ∈ (textMapInject ⟨0, 0, false, [("A", "v")]⟩).map Prod.fst := by
  have h : (textMapInject ⟨0, 0, false, [("A", "v")]⟩).map Prod.fst
      = [fieldNameTraceID, fieldNameSpanID, fieldNameSampled, traceParentKey,
         "ot-baggage-A"] := rfl
  refine ⟨h, ?_⟩
  rw [h]
  decide

/-! ## Round-trip extraction of the injected carriers -/

theorem flag_no_dash (smp : Bool) :
    ∀ c ∈ ((if smp then "01" else "00") : String).data, ¬ c = '-' := by
  cases smp <;> decide

theorem flag_length (smp : Bool) :
    ((if smp then "01" else "00") : String).data.length = 2 := by
  cases smp <;> decide

theorem extractScan1_tp_injected (st : ExtractState) {tid sid : Nat}
    (smp : Bool) (h₁ : tid < 2 ^ 128) (h₂ : sid < 2 ^ 64) :
    extractScan1 st traceParentKey
        ("00" ++ "-" ++ String.mk (hexPadChars 32 tid) ++ "-"
          ++ String.mk (hexPadChars 16 sid) ++ "-"
          ++ (if smp then "01" else "00"))
      = ({ st with
          traceID := tid, spanID := sid,
          sampled := (if smp then true else st.sampled),
          requiredFieldCount := st.requiredFieldCount + 3 + 1 }, none) := by
  unfold extractScan1
  rw [if_pos aLow_tp]
  rw [tpValue_length _ _ _ (hexPadChars_length 32 tid) (hexPadChars_length 16 sid)
    (flag_length smp)]
  rw [if_neg (by norm_num)]
  rw [splitOnChar_tpValue _ _ _ (hexPadChars_no_dash 32 tid)
    (hexPadChars_no_dash 16 sid) (flag_no_dash smp)]
  rw [if_neg (by
    push_neg
    refine ⟨?_, rfl, ?_, ?_⟩
    · exact (show (4 : Nat) ≤ 4 by norm_num)
    · show (String.mk (hexPadChars 32 tid)).length = 32
      rw [length_data, data_mk, hexPadChars_length]
    · show (String.mk (hexPadChars 16 sid)).length = 16
      rw [length_data, data_mk, hexPadChars_length])]
  rw [show (["00", String.mk (hexPadChars 32 tid), String.mk (hexPadChars 16 sid),
      ((if smp then "01" else "00") : String)].getD 1 "")
      = String.mk (hexPadChars 32 tid) from rfl]
  rw [show (["00", String.mk (hexPadChars 32 tid), String.mk (hexPadChars 16 sid),
      ((if smp then "01" else "00") : String)].getD 2 "")
      = String.mk (hexPadChars 16 sid) from rfl]
  rw [uuidParse_hexPadChars32 h₁, parseUintHex64_hexPadChars16 h₂]
  cases smp <;> rfl

theorem textMapExtract_eq (carrier : List (String × String)) :
    textMapExtract carrier
      = (match (runKeys extractScan2
            (runKeys extractScan1 ⟨0, 0, 0, false, []⟩ carrier).1 carrier).2 with
        | some e => Except.error e
        | none =>
          if (runKeys extractScan2
              (runKeys extractScan1 ⟨0, 0, 0, false, []⟩ carrier).1 carrier).1.requiredFieldCount
              < tracerStateFieldCount then
            if (runKeys extractScan2
                (runKeys extractScan1 ⟨0, 0, 0, false, []⟩ carrier).1 carrier).1.requiredFieldCount
                = 0 then
              Except.error OTError.contextNotFound
            else Except.error OTError.contextCorrupted
          else
            Except.ok
              ⟨(runKeys extractScan2
                  (runKeys extractScan1 ⟨0, 0, 0, false, []⟩ carrier).1 carrier).1.traceID,
               (runKeys extractScan2
                  (runKeys extractScan1 ⟨0, 0, 0, false, []⟩ carrier).1 carrier).1.spanID,
               (runKeys extractScan2
                  (runKeys extractScan1 ⟨0, 0, 0, false, []⟩ carrier).1 carrier).1.sampled,
               (runKeys extractScan2
                  (runKeys extractScan1 ⟨0, 0, 0, false, []⟩ carrier).1 carrier).1.decodedBaggage⟩) := rfl

theorem extract_discrete_carrier (tid sid : Nat) (smp : Bool)
    (bag : List (String × String))
    (h₁ : tid < 2 ^ 128) (h₂ : sid < 2 ^ 64)
    (hlow : ∀ kv ∈ bag, asciiLower kv.1 = kv.1)
    (hnodup : (bag.map Prod.fst).Nodup) :
    textMapExtract
        ([(fieldNameTraceID, String.mk (hexPadChars 32 tid)),
          (fieldNameSpanID, formatUintHex sid),
          (fieldNameSampled, formatBool smp)]
          ++ bag.map (fun kv => (prefixBaggage ++ kv.1, kv.2)))
      = Except.ok ⟨tid, sid, smp, bag⟩ := by
  have hrun1 : runKeys extractScan1 ⟨0, 0, 0, false, []⟩
      ([(fieldNameTraceID, String.mk (hexPadChars 32 tid)),
        (fieldNameSpanID, formatUintHex sid),
        (fieldNameSampled, formatBool smp)]
        ++ bag.map (fun kv => (prefixBaggage ++ kv.1, kv.2)))
      = (⟨0, 0, 0, false, []⟩, none) := by
    apply runKeys_scan1_skip
    intro kv hkv
    simp only [List.cons_append, List.nil_append, List.mem_cons] at hkv
    rcases hkv with rfl | rfl | rfl | hkv
    · rw [aLow_f1]; decide
    · rw [aLow_f2]; decide
    · rw [aLow_f3]; decide
    · obtain ⟨x, _, rfl⟩ := List.mem_map.mp hkv
      rw [asciiLower_bkey]
      exact bkey_ne_traceParent _
  have hrun2 : runKeys extractScan2 ⟨0, 0, 0, false, []⟩
      ([(fieldNameTraceID, String.mk (hexPadChars 32 tid)),
        (fieldNameSpanID, formatUintHex sid),
        (fieldNameSampled, formatBool smp)]
        ++ bag.map (fun kv => (prefixBaggage ++ kv.1, kv.2)))
      = (⟨0 + 1 + 1 + 1, tid, sid, smp, bag⟩, none) := by
    simp only [List.cons_append, List.nil_append]
    rw [runKeys_cons, extractScan2_traceid _ _ (uuidParse_hexPadChars32 h₁)]
    dsimp only
    rw [runKeys_cons, extractScan2_spanid _ _ (parseUintHex64_formatUintHex h₂)]
    dsimp only
    rw [runKeys_cons, extractScan2_sampled _ _ (parseBool_formatBool smp)]
    dsimp only
    rw [runKeys_scan2_baggage bag _ hlow (by simp) hnodup]
    dsimp only [List.nil_append]
  rw [textMapExtract_eq, hrun1]
  dsimp only
  rw [hrun2]
  dsimp only
  rw [show tracerStateFieldCount = (3 : Int) from rfl]
  rw [if_neg (by norm_num)]

theorem extract_composite_carrier (tid sid : Nat) (smp : Bool)
    (bag : List (String × String))
    (h₁ : tid < 2 ^ 128) (h₂ : sid < 2 ^ 64)
    (hlow : ∀ kv ∈ bag, asciiLower kv.1 = kv.1)
    (hnodup : (bag.map Prod.fst).Nodup) :
    textMapExtract
        ([(traceParentKey, "00" ++ "-" ++ String.mk (hexPadChars 32 tid)
            ++ "-" ++ String.mk (hexPadChars 16 sid) ++ "-"
            ++ (if smp then "01" else "00"))]
          ++ bag.map (fun kv => (prefixBaggage ++ kv.1, kv.2)))
      = Except.ok ⟨tid, sid, smp, bag⟩ := by
  have hskiprest : ∀ kv ∈ bag.map (fun kv => (prefixBaggage ++ kv.1, kv.2)),
      ¬ asciiLower kv.1 = traceParentKey := by
    intro kv hkv
    obtain ⟨x, _, rfl⟩ := List.mem_map.mp hkv
    rw [asciiLower_bkey]
    exact bkey_ne_traceParent _
  have hrun1 : runKeys extractScan1 ⟨0, 0, 0, false, []⟩
      ([(traceParentKey, "00" ++ "-" ++ String.mk (hexPadChars 32 tid)
          ++ "-" ++ String.mk (hexPadChars 16 sid) ++ "-"
          ++ (if smp then "01" else "00"))]
        ++ bag.map (fun kv => (prefixBaggage ++ kv.1, kv.2)))
      = (⟨0 + 3 + 1, tid, sid, (if smp then true else false), []⟩, none) := by
    simp only [List.cons_append, List.nil_append]
    rw [runKeys_cons, extractScan1_tp_injected ⟨0, 0, 0, false, []⟩ smp h₁ h₂]
    dsimp only
    rw [runKeys_scan1_skip _ _ hskiprest]
  have hrun2 : runKeys extractScan2 ⟨0 + 3 + 1, tid, sid, (if smp then true else false), []⟩
      ([(traceParentKey, "00" ++ "-" ++ String.mk (hexPadChars 32 tid)
          ++ "-" ++ String.mk (hexPadChars 16 sid) ++ "-"
          ++ (if smp then "01" else "00"))]
        ++ bag.map (fun kv => (prefixBaggage ++ kv.1, kv.2)))
      = (⟨0 + 3 + 1, tid, sid, (if smp then true else false), bag⟩, none) := by
    simp only [List.cons_append, List.nil_append]
    rw [runKeys_cons, extractScan2_other _ _ _ (by rw [aLow_tp]; decide)
      (by rw [aLow_tp]; decide) (by rw [aLow_tp]; decide)
      (by rw [aLow_tp]; decide)]
    dsimp only
    rw [runKeys_scan2_baggage bag _ hlow (by simp) hnodup]
    dsimp only [List.nil_append]
  rw [textMapExtract_eq, hrun1]
  dsimp only
  rw [hrun2]
  dsimp only
  rw [show tracerStateFieldCount = (3 : Int) from rfl]
  rw [if_neg (by norm_num)]
  cases smp <;> rfl

/-- Claim C1 (corrected): for every valid `SpanContext` whose baggage
keys are lower-case (the amendment) and duplicate-free, extracting with
the text-map propagator from the injected carrier restricted to the
three discrete `ot-tracer-*` fields plus baggage keys, and from the
carrier restricted to the composite `traceparent` field plus baggage
keys, recovers trace id, span id, sampled flag and baggage exactly.
Contrary to the claim this fails for arbitrary baggage: `Inject` writes
the key `ot-baggage-` + k unchanged while `Extract` lower-cases carrier
keys, so a key with an upper-case letter comes back lower-cased (see the
counterexample). -/
theorem c1_text_roundtrip (sc : SpanContext)
    (h₁ : sc.traceID < 2 ^ 128) (h₂ : sc.spanID < 2 ^ 64)
    (hlow : ∀ kv ∈ sc.baggage, asciiLower kv.1 = kv.1)
    (hnodup : (sc.baggage.map Prod.fst).Nodup) :
    textMapExtract (discreteOnly (textMapInject sc)) = Except.ok sc ∧
    textMapExtract (compositeOnly (textMapInject sc)) = Except.ok sc := by
  constructor
  · rw [discreteOnly_inject sc hnodup]
    obtain ⟨tid, sid, smp, bag⟩ := sc
    exact extract_discrete_carrier tid sid smp bag h₁ h₂ hlow hnodup
  · rw [compositeOnly_inject sc hnodup]
    obtain ⟨tid, sid, smp, bag⟩ := sc
    exact extract_composite_carrier tid sid smp bag h₁ h₂ hlow hnodup

/-- Witness for C1 at a concrete context. -/
theorem c1_witness :
    textMapExtract (discreteOnly (textMapInject ⟨1, 2, true, [("k", "v")]⟩))
      = Except.ok ⟨1, 2, true, [("k", "v")]⟩ ∧
    textMapExtract (compositeOnly (textMapInject ⟨1, 2, true, [("k", "v")]⟩))
      = Except.ok ⟨1, 2, true, [("k", "v")]⟩ :=
  c1_text_roundtrip ⟨1, 2, true, [("k", "v")]⟩ (by norm_num) (by norm_num)
    (by decide) (by decide)

/-- Counterexample to C1 as stated: with the baggage key `"A"` the
round trip returns the key lower-cased, so the extracted context differs
from the injected one. -/
theorem c1_counterexample :
    textMapExtract (discreteOnly (textMapInject ⟨0, 0, false, [("A", "v")]⟩))
      = Except.ok ⟨0, 0, false, [("a", "v")]⟩ ∧
    ¬ textMapExtract (discreteOnly (textMapInject ⟨0, 0, false, [("A", "v")]⟩))
      = Except.ok ⟨0, 0, false, [("A", "v")]⟩ := by
  have h : textMapExtract (discreteOnly (textMapInject ⟨0, 0, false, [("A", "v")]⟩))
      = Except.ok ⟨0, 0, false, [("a", "v")]⟩ := by decide
  refine ⟨h, ?_⟩
  rw [h]
  intro hc
  have := Except.ok.inj hc
  have hb := congrArg SpanContext.baggage this
  simp only at hb
  have hk := congrArg (fun l => (l.headD ("", "")).1) hb
  simp only [List.headD] at hk
  exact absurd (congrArg String.data hk) (by decide)

/-! ## The count-based decision rule of the text extractor (C3) -/

theorem tpValid_length {v : String} (hv : tpValid v = true) :
    ¬ v.length < 55 := by
  intro h
  simp only [tpValid] at hv
  rw [if_pos h] at hv
  simp at hv

theorem tpValid_parts {v : String} (hv : tpValid v = true) :
    ¬ ((splitOnChar '-' v).length < 4 ∨
        ¬ (splitOnChar '-' v).getD 0 "" = "00" ∨
        ¬ ((splitOnChar '-' v).getD 1 "").length = 32 ∨
        ¬ ((splitOnChar '-' v).getD 2 "").length = 16) := by
  intro h
  simp only [tpValid] at hv
  rw [if_neg (tpValid_length hv), if_pos h] at hv
  simp at hv

theorem tpValid_parse {v : String} (hv : tpValid v = true) :
    (uuidParse ((splitOnChar '-' v).getD 1 "")).isSome = true ∧
    (parseUintHex64 ((splitOnChar '-' v).getD 2 "")).isSome = true := by
  have h := hv
  simp only [tpValid] at h
  rw [if_neg (tpValid_length hv), if_neg (tpValid_parts hv)] at h
  simpa using h

theorem extractScan1_tp_valid (st : ExtractState) {k v : String}
    (hk : asciiLower k = traceParentKey) (hv : tpValid v = true) :
    ∃ st', extractScan1 st k v = (st', none)
      ∧ st'.requiredFieldCount = st.requiredFieldCount + 4 := by
  obtain ⟨ha, hb⟩ := tpValid_parse hv
  obtain ⟨tid, htid⟩ := Option.isSome_iff_exists.mp ha
  obtain ⟨sid, hsid⟩ := Option.isSome_iff_exists.mp hb
  unfold extractScan1
  rw [if_pos hk, if_neg (tpValid_length hv), if_neg (tpValid_parts hv),
    htid, hsid]
  dsimp only
  by_cases h3 : (splitOnChar '-' v).getD 3 "" = "01"
  · rw [if_pos h3]
    exact ⟨_, rfl, by dsimp only; omega⟩
  · rw [if_neg h3]
    exact ⟨_, rfl, by dsimp only; omega⟩

theorem extractScan1_tp_invalid (st : ExtractState) {k v : String}
    (hk : asciiLower k = traceParentKey) (hv : tpValid v = false) :
    ∃ st' e, extractScan1 st k v = (st', some e)
      ∧ st'.requiredFieldCount = st.requiredFieldCount := by
  by_cases h1 : v.length < 55
  · unfold extractScan1
    rw [if_pos hk, if_pos h1]
    exact ⟨st, _, rfl, rfl⟩
  · by_cases h2 : (splitOnChar '-' v).length < 4 ∨
        ¬ (splitOnChar '-' v).getD 0 "" = "00" ∨
        ¬ ((splitOnChar '-' v).getD 1 "").length = 32 ∨
        ¬ ((splitOnChar '-' v).getD 2 "").length = 16
    · unfold extractScan1
      rw [if_pos hk, if_neg h1, if_pos h2]
      exact ⟨st, _, rfl, rfl⟩
    · have hv' : decide
          ((uuidParse ((splitOnChar '-' v).getD 1 "")).isSome = true ∧
            (parseUintHex64 ((splitOnChar '-' v).getD 2 "")).isSome = true)
          = false := by
        simp only [tpValid] at hv
        rw [if_neg h1, if_neg h2] at hv
        exact hv
      simp only [decide_eq_false_iff_not, not_and_or] at hv'
      by_cases ha : (uuidParse ((splitOnChar '-' v).getD 1 "")).isSome = true
      · obtain ⟨tid, htid⟩ := Option.isSome_iff_exists.mp ha
        have hb : parseUintHex64 ((splitOnChar '-' v).getD 2 "") = none := by
          rcases hv' with h | h
          · exact absurd ha h
          · exact Option.not_isSome_iff_eq_none.mp h
        unfold extractScan1
        rw [if_pos hk, if_neg h1, if_neg h2, htid, hb]
        exact ⟨_, _, rfl, rfl⟩
      · have ha' : uuidParse ((splitOnChar '-' v).getD 1 "") = none :=
          Option.not_isSome_iff_eq_none.mp ha
        unfold extractScan1
        rw [if_pos hk, if_neg h1, if_neg h2, ha']
        exact ⟨_, _, rfl, rfl⟩

theorem runKeys_scan1_count :
    ∀ (l : List (String × String)) (st : ExtractState),
    l.countP (fun kv => asciiLower kv.1 = traceParentKey) ≤ 1 →
    (runKeys extractScan1 st l).1.requiredFieldCount
      = st.requiredFieldCount
        + (if l.any (fun kv => asciiLower kv.1 = traceParentKey && tpValid kv.2)
            then 4 else 0) := by
  intro l
  induction l with
  | nil =>
    intro st _
    simp [runKeys]
  | cons kv rest ih =>
    intro st hc
    obtain ⟨k, v⟩ := kv
    rw [List.countP_cons] at hc
    by_cases hk : asciiLower k = traceParentKey
    · have hc0 : rest.countP (fun kv => asciiLower kv.1 = traceParentKey) = 0 := by
        simp only [hk, eq_self_iff_true, decide_True, if_true] at hc
        omega
      have hrest : ∀ kv ∈ rest, ¬ asciiLower kv.1 = traceParentKey := by
        intro x hx
        have := List.countP_eq_zero.mp hc0 x hx
        simpa using this
      have hanyrest :
          rest.any (fun kv => asciiLower kv.1 = traceParentKey && tpValid kv.2)
            = false := by
        rw [List.any_eq_false]
        intro x hx
        simp [hrest x hx]
      by_cases hvp : tpValid v = true
      · obtain ⟨st', heq, hcnt⟩ := extractScan1_tp_valid st hk hvp
        rw [runKeys_cons, heq]
        dsimp only
        rw [runKeys_scan1_skip rest st' hrest, List.any_cons]
        simp only [hk, hvp, decide_True, Bool.true_and, Bool.true_or, if_true]
        exact hcnt
      · have hvp' : tpValid v = false := by
          cases hx : tpValid v
          · rfl
          · exact absurd hx hvp
        obtain ⟨st', e, heq, hcnt⟩ := extractScan1_tp_invalid st hk hvp'
        rw [runKeys_cons, heq]
        dsimp only
        rw [List.any_cons]
        simp only [hk, hvp', decide_True, Bool.true_and, Bool.false_or, hanyrest,
          Bool.false_eq_true, if_false]
        simpa using hcnt
    · rw [runKeys_cons, extractScan1_other st v hk]
      dsimp only
      rw [List.any_cons]
      simp only [hk, decide_False, Bool.false_and, Bool.false_or]
      apply ih
      simp [hk] at hc
      omega

theorem extractScan2_count_step (st : ExtractState) (k v : String)
    (h1 : asciiLower k = fieldNameTraceID → (uuidParse v).isSome = true)
    (h2 : asciiLower k = fieldNameSpanID → (parseUintHex64 v).isSome = true)
    (h3 : asciiLower k = fieldNameSampled → (parseBool v).isSome = true) :
    ∃ st', extractScan2 st k v = (st', none)
      ∧ st'.requiredFieldCount = st.requiredFieldCount
          + (if asciiLower k = fieldNameTraceID ∨ asciiLower k = fieldNameSpanID
              ∨ asciiLower k = fieldNameSampled then 1 else 0) := by
  by_cases hk1 : asciiLower k = fieldNameTraceID
  · obtain ⟨tid, htid⟩ := Option.isSome_iff_exists.mp (h1 hk1)
    unfold extractScan2
    rw [if_pos hk1, htid]
    refine ⟨_, rfl, ?_⟩
    rw [if_pos (Or.inl hk1)]
  · by_cases hk2 : asciiLower k = fieldNameSpanID
    · obtain ⟨sid, hsid⟩ := Option.isSome_iff_exists.mp (h2 hk2)
      unfold extractScan2
      rw [if_neg hk1, if_pos hk2, hsid]
      refine ⟨_, rfl, ?_⟩
      rw [if_pos (Or.inr (Or.inl hk2))]
    · by_cases hk3 : asciiLower k = fieldNameSampled
      · obtain ⟨b, hb⟩ := Option.isSome_iff_exists.mp (h3 hk3)
        unfold extractScan2
        rw [if_neg hk1, if_neg hk2, if_pos hk3, hb]
        refine ⟨_, rfl, ?_⟩
        rw [if_pos (Or.inr (Or.inr hk3))]
      · unfold extractScan2
        cases hpfx : hasPfx prefixBaggage (asciiLower k)
        · simp only [if_neg hk1, if_neg hk2, if_neg hk3, hpfx,
            Bool.false_eq_true, if_false]
          refine ⟨_, rfl, ?_⟩
          rw [if_neg (by tauto)]
          dsimp only
          omega
        · simp only [if_neg hk1, if_neg hk2, if_neg hk3, hpfx,
            eq_self_iff_true, if_true]
          refine ⟨_, rfl, ?_⟩
          rw [if_neg (by tauto)]
          dsimp only
          omega

theorem runKeys_scan2_count :
    ∀ (l : List (String × String)) (st : ExtractState),
    (∀ kv ∈ l,
      (asciiLower kv.1 = fieldNameTraceID → (uuidParse kv.2).isSome = true) ∧
      (asciiLower kv.1 = fieldNameSpanID → (parseUintHex64 kv.2).isSome = true) ∧
      (asciiLower kv.1 = fieldNameSampled → (parseBool kv.2).isSome = true)) →
    (runKeys extractScan2 st l).2 = none ∧
    (runKeys extractScan2 st l).1.requiredFieldCount
      = st.requiredFieldCount
          + (l.countP (fun kv => asciiLower kv.1 = fieldNameTraceID
              ∨ asciiLower kv.1 = fieldNameSpanID
              ∨ asciiLower kv.1 = fieldNameSampled) : Int) := by
  intro l
  induction l with
  | nil =>
    intro st _
    simp [runKeys]
  | cons kv rest ih =>
    intro st hval
    obtain ⟨k, v⟩ := kv
    obtain ⟨hh1, hh2, hh3⟩ := hval (k, v) (List.mem_cons_self _ _)
    obtain ⟨st', heq, hcnt⟩ := extractScan2_count_step st k v hh1 hh2 hh3
    rw [runKeys_cons, heq]
    dsimp only
    obtain ⟨ihe, ihc⟩ := ih st' fun x hx => hval x (List.mem_cons_of_mem _ hx)
    refine ⟨ihe, ?_⟩
    rw [ihc, hcnt, List.countP_cons]
    by_cases hd : asciiLower k = fieldNameTraceID ∨ asciiLower k = fieldNameSpanID
        ∨ asciiLower k = fieldNameSampled
    · simp only [hd, decide_True, eq_self_iff_true, if_true]
      push_cast
      omega
    · simp only [hd, decide_False, Bool.false_eq_true, if_false]
      push_cast
      omega

theorem countP_le_one_of_nodup_map {α : Type} (g : α → String) :
    ∀ (l : List α), (l.map g).Nodup → ∀ c : String,
    l.countP (fun x => g x = c) ≤ 1 := by
  intro l
  induction l with
  | nil => intro _ c; simp
  | cons a rest ih =>
    intro hnodup c
    rw [List.map_cons, List.nodup_cons] at hnodup
    rw [List.countP_cons]
    by_cases h : g a = c
    · have h0 : rest.countP (fun x => g x = c) = 0 := by
        rw [List.countP_eq_zero]
        intro x hx
        simp only [decide_eq_true_eq]
        intro hc
        exact hnodup.1 (h ▸ hc ▸ List.mem_map_of_mem g hx)
      simp [h, h0]
    · simp only [h, decide_False, Bool.false_eq_true, if_false]
      simpa using ih hnodup.2 c

theorem countP_eq_if_any {α : Type} (p : α → Bool) (l : List α)
    (h : l.countP p ≤ 1) :
    l.countP p = if l.any p then 1 else 0 := by
  by_cases ha : l.any p = true
  · rw [if_pos ha]
    obtain ⟨x, hx, hpx⟩ := List.any_eq_true.mp ha
    have := List.countP_pos_iff.mpr ⟨x, hx, hpx⟩
    omega
  · rw [if_neg ha]
    rw [List.countP_eq_zero]
    intro x hx
    intro hpx
    exact ha (List.any_eq_true.mpr ⟨x, hx, hpx⟩)

theorem countP_or_disjoint {α : Type} (p q : α → Bool)
    (h : ∀ x, ¬(p x = true ∧ q x = true)) :
    ∀ l : List α,
    l.countP (fun x => p x || q x) = l.countP p + l.countP q := by
  intro l
  induction l with
  | nil => simp
  | cons a rest ih =>
    simp only [List.countP_cons, ih]
    cases hp : p a
    · cases hq : q a
      · simp [hp, hq]
      · simp [hp, hq]
        omega
    · cases hq : q a
      · simp [hp, hq]
        omega
      · exact absurd ⟨hp, hq⟩ (h a)

theorem countP_eq_of_pred_eq {α : Type} (p q : α → Bool) (h : ∀ x, p x = q x) :
    ∀ l : List α, l.countP p = l.countP q := by
  intro l
  induction l with
  | nil => simp
  | cons a rest ih => simp [List.countP_cons, h a, ih]

theorem countP_discrete_split (carrier : List (String × String))
    (hnodup : (carrier.map fun kv => asciiLower kv.1).Nodup) :
    carrier.countP (fun kv => asciiLower kv.1 = fieldNameTraceID
        ∨ asciiLower kv.1 = fieldNameSpanID ∨ asciiLower kv.1 = fieldNameSampled)
      = (if carrier.any (fun kv => asciiLower kv.1 = fieldNameTraceID)
          then 1 else 0)
        + (if carrier.any (fun kv => asciiLower kv.1 = fieldNameSpanID)
            then 1 else 0)
        + (if carrier.any (fun kv => asciiLower kv.1 = fieldNameSampled)
            then 1 else 0) := by
  have hstep1 : carrier.countP (fun kv => asciiLower kv.1 = fieldNameTraceID
        ∨ asciiLower kv.1 = fieldNameSpanID ∨ asciiLower kv.1 = fieldNameSampled)
      = carrier.countP (fun kv => (asciiLower kv.1 = fieldNameTraceID
          || ((asciiLower kv.1 = fieldNameSpanID)
              || (asciiLower kv.1 = fieldNameSampled)))) :=
    countP_eq_of_pred_eq _ _ (fun kv => by
      by_cases ha : asciiLower kv.1 = fieldNameTraceID <;>
        by_cases hb : asciiLower kv.1 = fieldNameSpanID <;>
          by_cases hc : asciiLower kv.1 = fieldNameSampled <;>
            simp [ha, hb, hc]) carrier
  have hdisj1 : ∀ x : String × String,
      ¬((decide (asciiLower x.1 = fieldNameTraceID)) = true ∧
        ((asciiLower x.1 = fieldNameSpanID) || (asciiLower x.1 = fieldNameSampled))
          = true) := by
    intro x hx
    obtain ⟨ha, hb⟩ := hx
    simp only [decide_eq_true_eq, Bool.or_eq_true] at ha hb
    rcases hb with h | h
    · exact absurd (ha.symm.trans h) (by decide)
    · exact absurd (ha.symm.trans h) (by decide)
  have hdisj2 : ∀ x : String × String,
      ¬((decide (asciiLower x.1 = fieldNameSpanID)) = true ∧
        (decide (asciiLower x.1 = fieldNameSampled)) = true) := by
    intro x hx
    obtain ⟨ha, hb⟩ := hx
    simp only [decide_eq_true_eq] at ha hb
    exact absurd (ha.symm.trans hb) (by decide)
  rw [hstep1, countP_or_disjoint _ _ hdisj1 carrier,
    countP_or_disjoint _ _ hdisj2 carrier,
    countP_eq_if_any (fun kv => decide (asciiLower kv.1 = fieldNameTraceID))
      carrier
      (countP_le_one_of_nodup_map (fun kv => asciiLower kv.1) carrier hnodup
        fieldNameTraceID),
    countP_eq_if_any (fun kv => decide (asciiLower kv.1 = fieldNameSpanID))
      carrier
      (countP_le_one_of_nodup_map (fun kv => asciiLower kv.1) carrier hnodup
        fieldNameSpanID),
    countP_eq_if_any (fun kv => decide (asciiLower kv.1 = fieldNameSampled))
      carrier
      (countP_le_one_of_nodup_map (fun kv => asciiLower kv.1) carrier hnodup
        fieldNameSampled)]
  omega

/-- Claim C3 (confirmed): over carriers whose lower-cased keys are
duplicate-free and whose discrete required fields carry well-formed
values, `textMapPropagator.Extract` decides by the count of valid
required fields, each discrete `ot-tracer-*` field contributing one and
a fully valid composite `traceparent` field contributing the equivalent
of all three: a count reaching 3 yields a decoded context, a count of
exactly zero yields `ContextNotFound`, and a count strictly between
zero and 3 yields `ContextCorrupted`. -/
theorem c3_extract_decision (carrier : List (String × String))
    (hnodup : (carrier.map fun kv => asciiLower kv.1).Nodup)
    (hvalid : validDiscreteFields carrier) :
    (3 ≤ claimCount carrier → ∃ sc, textMapExtract carrier = Except.ok sc) ∧
    (claimCount carrier = 0 →
      textMapExtract carrier = Except.error OTError.contextNotFound) ∧
    (0 < claimCount carrier → claimCount carrier < 3 →
      textMapExtract carrier = Except.error OTError.contextCorrupted) := by
  have htple := countP_le_one_of_nodup_map (fun kv => asciiLower kv.1) carrier
    hnodup traceParentKey
  have h1 := runKeys_scan1_count carrier ⟨0, 0, 0, false, []⟩ htple
  obtain ⟨h2e, h2c⟩ := runKeys_scan2_count carrier
    (runKeys extractScan1 ⟨0, 0, 0, false, []⟩ carrier).1
    (fun kv hkv => hvalid kv hkv)
  have hz : (⟨0, 0, 0, false, []⟩ : ExtractState).requiredFieldCount = 0 := rfl
  rw [hz] at h1
  rw [h1, countP_discrete_split carrier hnodup] at h2c
  rw [textMapExtract_eq, h2e]
  dsimp only
  set n := (runKeys extractScan2
      (runKeys extractScan1 ⟨0, 0, 0, false, []⟩ carrier).1
      carrier).1.requiredFieldCount with hn
  obtain ⟨s, hsle, hccs, hns⟩ : ∃ s : Nat, s ≤ 3 ∧
      claimCount carrier = s
        + (if carrier.any
              (fun kv => asciiLower kv.1 = traceParentKey && tpValid kv.2)
            then 3 else 0) ∧
      n = (if carrier.any
              (fun kv => asciiLower kv.1 = traceParentKey && tpValid kv.2)
            then 4 else 0) + (s : Int) := by
    refine ⟨(if carrier.any (fun kv => asciiLower kv.1 = fieldNameTraceID)
        then 1 else 0)
      + (if carrier.any (fun kv => asciiLower kv.1 = fieldNameSpanID)
          then 1 else 0)
      + (if carrier.any (fun kv => asciiLower kv.1 = fieldNameSampled)
          then 1 else 0), ?_, rfl, ?_⟩
    · split_ifs <;> omega
    · omega
  by_cases htp : carrier.any
      (fun kv => asciiLower kv.1 = traceParentKey && tpValid kv.2) = true
  · rw [if_pos htp] at hccs
    rw [if_pos htp] at hns
    refine ⟨fun _ => ?_, fun h0 => ?_, fun hpos hlt => ?_⟩
    · rw [if_neg (show ¬ n < tracerStateFieldCount by
        simp only [tracerStateFieldCount]; omega)]
      exact ⟨_, rfl⟩
    · rw [hccs] at h0
      exact absurd h0 (by omega)
    · rw [hccs] at hlt
      exact absurd hlt (by omega)
  · rw [if_neg htp] at hccs
    rw [if_neg htp] at hns
    refine ⟨fun hge => ?_, fun h0 => ?_, fun hpos hlt => ?_⟩
    · rw [hccs] at hge
      rw [if_neg (show ¬ n < tracerStateFieldCount by
        simp only [tracerStateFieldCount]; omega)]
      exact ⟨_, rfl⟩
    · rw [hccs] at h0
      rw [if_pos (show n < tracerStateFieldCount by
          simp only [tracerStateFieldCount]; omega),
        if_pos (show n = 0 by omega)]
    · rw [hccs] at hpos hlt
      rw [if_pos (show n < tracerStateFieldCount by
          simp only [tracerStateFieldCount]; omega),
        if_neg (show ¬ n = 0 by omega)]

/-- Witness for C3 at a carrier holding exactly one well-formed
discrete field: count 1 is strictly between zero and 3, so extraction
reports a corrupted context. -/
theorem c3_witness :
    textMapExtract [("ot-tracer-traceid", "4bf92f3577b34da6a3ce929d0e0e4736")]
      = Except.error OTError.contextCorrupted :=
  (c3_extract_decision
      [("ot-tracer-traceid", "4bf92f3577b34da6a3ce929d0e0e4736")]
      (by decide) (by decide)).2.2 (by decide) (by decide)


end GoAgent
